import Mathlib

/-!
# Verification of the Xonix simulation engine

Shallow embedding of `src/app/xonix/xonix.ts`.  JavaScript numbers are
modelled as `ℚ` (every value manipulated by the claims under scrutiny is a
small dyadic rational, on which IEEE double arithmetic is exact); machine
integers appearing as array indices are modelled as `ℕ`/`ℤ`.  JS arrays of
length `width*height` are modelled as total functions `ℕ → _` together with
the explicit length `width*height`; reads the program performs outside the
array (`undefined` lookups) are modelled by explicit bounds tests exactly
where the program's own truthiness tests make `undefined` observable.
-/

set_option maxHeartbeats 1000000

namespace Xonix

/-- Cell states, in the source's declaration order (`enum CellState`). -/
inductive CellState where
  | OUT_OF_BOUNDS
  | UNCLAIMED
  | CLAIMED
  | CLAIMING
deriving DecidableEq, Repr

open CellState

/-- `class XY`: a pair of continuous coordinates. -/
structure XY where
  x : ℚ
  y : ℚ
deriving DecidableEq, Repr

namespace XY

/-- `get xRounded() { return Math.floor(this.x); }` -/
def xRounded (p : XY) : ℤ := ⌊p.x⌋

/-- `get yRounded() { return Math.floor(this.y); }` -/
def yRounded (p : XY) : ℤ := ⌊p.y⌋

/-- `differRounded(x, y) { return x !== this.xRounded || y !== this.yRounded; }` -/
def differRounded (p : XY) (x y : ℤ) : Bool :=
  x ≠ p.xRounded ∨ y ≠ p.yRounded

end XY

/-- Entity kinds (`Player`, `Enemy`, `Destroyer extends Enemy`): the class
hierarchy flattened to a tag. -/
inductive EntityKind where
  | player
  | enemy
  | destroyer
deriving DecidableEq, Repr

/-- `abstract class Entity` together with the `Player` subclass fields
(`lives`, `claiming`), flattened.  The `id` field models JavaScript object
identity (`item !== this`): distinct objects carry distinct ids. -/
structure Entity where
  id : ℕ
  kind : EntityKind
  position : XY
  direction : XY
  speed : ℚ
  lives : ℤ
  claiming : Bool
deriving DecidableEq, Repr

/-- `class XonixField`.  `cells` and `couldClaim` are JS arrays of length
`width * height`; `cellCount` is the per-state occupancy array (JS numbers,
hence `ℤ`: nothing in the program prevents it from going negative). -/
structure XonixField where
  width : ℕ
  height : ℕ
  cells : ℕ → CellState
  cellCount : CellState → ℤ

namespace XonixField

/-- Length of the `cells` / `couldClaim` arrays (`width * height`). -/
def len (f : XonixField) : ℕ := f.width * f.height

/-- `efficientIndex(x, y) { return y * this.width + x; }`, on the exact
(rational) coordinates the program may feed it. -/
def efficientIndexQ (f : XonixField) (x y : ℚ) : ℚ := y * f.width + x

/-- `constructor(width, height)`: every cell initialized to `UNCLAIMED`
through `setCellDirect`.  Net effect on the counts: `UNCLAIMED` receives
`width*height`; the initial `cellCount[undefined]--` of the first write per
cell touches only the junk `"undefined"` key of the JS array, never a
`CellState` entry, so the four real counters start as below. -/
def mkField (width height : ℕ) : XonixField where
  width := width
  height := height
  cells := fun _ => UNCLAIMED
  cellCount := fun s => if s = UNCLAIMED then (width * height : ℤ) else 0

/-- `setCellDirect(value, i)`: decrement the count of the previous state,
increment the count of the new one, store the cell.  (All call sites reached
by the claims use in-range `i`.) -/
def setCellDirect (f : XonixField) (value : CellState) (i : ℕ) : XonixField :=
  { f with
    cells := fun j => if j = i then value else f.cells j
    cellCount := fun s =>
      f.cellCount s - (if s = f.cells i then 1 else 0) + (if s = value then 1 else 0) }

/-- `isOut(x, y)` -/
def isOut (f : XonixField) (x y : ℤ) : Bool :=
  x < 0 ∨ (f.width : ℤ) ≤ x ∨ y < 0 ∨ (f.height : ℤ) ≤ y

/-- `getCell(x, y)`: `OUT_OF_BOUNDS` outside the grid, else the stored
state at row-major index `y * width + x`. -/
def getCell (f : XonixField) (x y : ℤ) : CellState :=
  if f.isOut x y then OUT_OF_BOUNDS
  else f.cells (y * f.width + x).toNat

/-- `setCellByXY(value, x, y)` -/
def setCellByXY (f : XonixField) (value : CellState) (x y : ℕ) : XonixField :=
  f.setCellDirect value (y * f.width + x)

/-- `clearClaiming()` as a structural loop over an explicit index list. -/
def clearClaimingLoop (f : XonixField) : List ℕ → XonixField
  | [] => f
  | i :: rest =>
    clearClaimingLoop
      (if f.cells i = CLAIMING then f.setCellDirect UNCLAIMED i else f) rest

/-- `clearClaiming() { for i: if (cells[i] === CLAIMING) setCellDirect(UNCLAIMED, i) }` -/
def clearClaiming (f : XonixField) : XonixField :=
  f.clearClaimingLoop (List.range f.len)

/-- `claimedRatio() { return this.cellCount[CLAIMED] / this.cells.length; }`.
JS division of anything by `0` when the count is also `0` yields `NaN`
(the `0 × 0` field); `none` models that non-numeric result. -/
def claimedRatio (f : XonixField) : Option ℚ :=
  if f.len = 0 then none else some ((f.cellCount CLAIMED : ℚ) / (f.len : ℚ))

/-! ## `claim(enemies)` — phase 1: seal the trail -/

/-- Phase 1 of `claim`: `for i: if (cells[i] === CLAIMING) setCellDirect(CLAIMED, i)`,
as a structural loop over an explicit index list. -/
def sealLoop (f : XonixField) : List ℕ → XonixField
  | [] => f
  | i :: rest =>
    sealLoop (if f.cells i = CLAIMING then f.setCellDirect CLAIMED i else f) rest

/-- The field after phase 1 of `claim` (trail sealed). -/
def sealTrail (f : XonixField) : XonixField :=
  f.sealLoop (List.range f.len)

/-! ## `claim(enemies)` — phase 2: span fill from the enemy seeds

`shouldStopScan(index) = cells[index] === CLAIMED || !couldClaim[index]`.
An index outside `[0, width*height)` reads `undefined` from both arrays:
`undefined === CLAIMED` is `false` and `!undefined` is `true`, so any such
index stops the scan; the explicit bounds tests below encode exactly that. -/

/-- `shouldStopScan` at a natural index. -/
def stopN (f : XonixField) (cc : ℕ → Bool) (i : ℕ) : Bool :=
  decide (f.len ≤ i) || decide (f.cells i = CLAIMED) || !cc i

/-- `shouldStopScan` at a possibly negative index (`aboveIndex = i - width`). -/
def stopZ (f : XonixField) (cc : ℕ → Bool) (i : ℤ) : Bool :=
  if i < 0 then true else stopN f cc i.toNat

/-- The leftward arm of the span:
`for (; lx >= rowStart; lx--) { if (shouldStopScan(lx)) break; couldClaim[lx] = false; }`.
Returns the final mask together with the final value of `lx` (either a
stopped index, or `rowStart - 1` when the arm ran off the row).  The caller
always supplies `rowStart ≤ j`, so testing the loop bound after the body
(as done here) agrees with the source's order of tests. -/
def scanLeft (f : XonixField) (cc : ℕ → Bool) (rowStart j : ℕ) : (ℕ → Bool) × ℤ :=
  if stopN f cc j then (cc, (j : ℤ))
  else
    let cc1 : ℕ → Bool := fun k => if k = j then false else cc k
    if j ≤ rowStart then (cc1, (rowStart : ℤ) - 1)
    else scanLeft f cc1 rowStart (j - 1)
termination_by j
decreasing_by omega

/-- The rightward arm of the span:
`for (; rx <= rowEnd; rx++) { if (shouldStopScan(rx)) break; couldClaim[rx] = false; }`.
Returns the final mask together with the final value of `rx`. -/
def scanRight (f : XonixField) (cc : ℕ → Bool) (rowEnd j : ℕ) : (ℕ → Bool) × ℕ :=
  if rowEnd < j then (cc, j)
  else if stopN f cc j then (cc, j)
  else scanRight f (fun k => if k = j then false else cc k) rowEnd (j + 1)
termination_by rowEnd + 1 - j
decreasing_by omega

/-- The pushes the span body issues for one span cell `i`:
`aboveIndex = i - width` then `belowIndex = i + width`, each pushed only if
not stopped (so in particular only in-range indices are ever pushed). -/
def pushesFor (f : XonixField) (cc : ℕ → Bool) (i : ℕ) : List ℕ :=
  (if stopZ f cc ((i : ℤ) - f.width) then [] else [((i : ℤ) - f.width).toNat]) ++
  (if stopN f cc (i + f.width) then [] else [i + f.width])

/-- All pushes for the span `[lo, hi)`, in the order the source pushes them. -/
def pushes (f : XonixField) (cc : ℕ → Bool) (lo hi : ℕ) : List ℕ :=
  (List.range' lo (hi - lo)).flatMap (pushesFor f cc)

/-- Number of in-range cells whose could-claim flag is still `true`
(the termination measure of the span-fill loop). -/
def trueCount (f : XonixField) (cc : ℕ → Bool) : ℕ :=
  ((Finset.range f.len).filter (fun i => cc i = true)).card

theorem stopN_eq_false {f : XonixField} {cc : ℕ → Bool} {i : ℕ} :
    stopN f cc i = false ↔ i < f.len ∧ f.cells i ≠ CLAIMED ∧ cc i = true := by
  simp [stopN, Nat.lt_iff_add_one_le]
  tauto

theorem scanLeft_true_mono {f : XonixField} {cc : ℕ → Bool} {rowStart j : ℕ} :
    ∀ i, (scanLeft f cc rowStart j).1 i = true → cc i = true := by
  induction j using Nat.strong_induction_on generalizing cc with
  | _ j ih =>
    intro i h
    rw [scanLeft] at h
    by_cases hs : stopN f cc j
    · simpa [hs] using h
    · simp only [hs, Bool.false_eq_true, if_false] at h
      by_cases hj : j ≤ rowStart
      · simp only [hj, if_true] at h
        by_cases hij : i = j <;> simp_all
      · simp only [hj, if_false] at h
        have := ih (j - 1) (by omega) i h
        by_cases hij : i = j <;> simp_all

theorem scanLeft_false_mono {f : XonixField} {cc : ℕ → Bool} {rowStart j : ℕ}
    {i : ℕ} (h : cc i = false) : (scanLeft f cc rowStart j).1 i = false := by
  cases hr : (scanLeft f cc rowStart j).1 i with
  | false => rfl
  | true => exact absurd (scanLeft_true_mono i hr) (by simp [h])

theorem scanRight_true_mono {f : XonixField} {cc : ℕ → Bool} {rowEnd j : ℕ} :
    ∀ i, (scanRight f cc rowEnd j).1 i = true → cc i = true := by
  generalize hm : rowEnd + 1 - j = m
  induction m using Nat.strong_induction_on generalizing cc j with
  | _ m ih =>
    intro i h
    rw [scanRight] at h
    by_cases hj : rowEnd < j
    · simpa [hj] using h
    · simp only [hj, if_false] at h
      by_cases hs : stopN f cc j
      · simpa [hs] using h
      · simp only [hs, Bool.false_eq_true, if_false] at h
        have := ih (rowEnd + 1 - (j + 1)) (by omega) rfl i h
        by_cases hij : i = j <;> simp_all

theorem scanRight_false_mono {f : XonixField} {cc : ℕ → Bool} {rowEnd j : ℕ}
    {i : ℕ} (h : cc i = false) : (scanRight f cc rowEnd j).1 i = false := by
  cases hr : (scanRight f cc rowEnd j).1 i with
  | false => rfl
  | true => exact absurd (scanRight_true_mono i hr) (by simp [h])

theorem scanLeft_marks_start {f : XonixField} {cc : ℕ → Bool} {rowStart j : ℕ}
    (h : stopN f cc j = false) : (scanLeft f cc rowStart j).1 j = false := by
  rw [scanLeft]
  simp only [h, Bool.false_eq_true, if_false]
  by_cases hj : j ≤ rowStart
  · simp [hj]
  · simp only [hj, if_false]
    exact scanLeft_false_mono (by simp)

theorem trueCount_lt {f : XonixField} {cc cc2 : ℕ → Bool} (c : ℕ)
    (hmono : ∀ i, cc2 i = true → cc i = true) (hc : c < f.len)
    (hold : cc c = true) (hnew : cc2 c = false) :
    trueCount f cc2 < trueCount f cc := by
  apply Finset.card_lt_card
  constructor
  · intro i hi
    simp only [Finset.mem_filter, Finset.mem_range] at hi ⊢
    exact ⟨hi.1, hmono i hi.2⟩
  · intro hsub
    have := hsub (Finset.mem_filter.mpr ⟨Finset.mem_range.mpr hc, hold⟩)
    simp [Finset.mem_filter, hnew] at this

/-- The span-fill stack loop of `startScan`:
`while (stack.length) { ... }` with `stack.pop()` taking the most recently
pushed index.  The list head is the next pop; the source's
`stack.push(a); stack.push(b)` therefore prepends `[a, b].reverse`. -/
def spanLoop (f : XonixField) (cc : ℕ → Bool) (stack : List ℕ) : ℕ → Bool :=
  match stack with
  | [] => cc
  | cellIndex :: rest =>
    if h : stopN f cc cellIndex then spanLoop f cc rest
    else
      let y := cellIndex / f.width
      let rowStart := y * f.width
      let rowEnd := f.width - 1 + y * f.width
      let left := scanLeft f cc rowStart cellIndex
      let right := scanRight f left.1 rowEnd (cellIndex + 1)
      let cc2 := right.1
      let ps := pushes f cc2 (left.2 + 1).toNat right.2
      spanLoop f cc2 (ps.reverse ++ rest)
termination_by (trueCount f cc, stack.length)
decreasing_by
  · exact Prod.Lex.right _ (by simp)
  · apply Prod.Lex.left
    apply trueCount_lt i
    · intro k hk
      exact scanLeft_true_mono k (scanRight_true_mono k hk)
    · exact (stopN_eq_false.mp (by simpa using h)).1
    · exact (stopN_eq_false.mp (by simpa using h)).2.2
    · exact scanRight_false_mono (scanLeft_marks_start (by simpa using h))

/-- `startScan(startX, startY)`: seed the stack with
`efficientIndex(startX, startY)` computed on the *raw* (possibly
fractional) enemy coordinates.  A fractional or negative seed index reads
`undefined` from both arrays, so the first pop stops immediately and the
scan is a no-op; only a nonnegative integer seed index starts the loop
proper. -/
def startScan (f : XonixField) (cc : ℕ → Bool) (startX startY : ℚ) : ℕ → Bool :=
  let start := f.efficientIndexQ startX startY
  if 0 ≤ start ∧ start.den = 1 then spanLoop f cc [start.num.toNat] else cc

/-! ## `claim(enemies)` — phase 3 and assembly -/

/-- Phase 3 of `claim`: `for i: if (couldClaim[i]) setCellDirect(CLAIMED, i)`. -/
def claimMarkedLoop (f : XonixField) (cc : ℕ → Bool) : List ℕ → XonixField
  | [] => f
  | i :: rest =>
    claimMarkedLoop (if cc i then f.setCellDirect CLAIMED i else f) cc rest

/-- `claim(enemies)`: seal the trail, reset the could-claim mask to all
`true`, run one span fill per enemy seeded at `enemy.position` (the raw
`{x, y}` destructuring of the source — not the rounded position), then
claim every cell still marked could-claim. -/
def claim (f : XonixField) (enemies : List Entity) : XonixField :=
  let f1 := f.sealTrail
  let cc0 : ℕ → Bool := fun _ => true
  let cc := enemies.foldl (fun cc e => startScan f1 cc e.position.x e.position.y) cc0
  claimMarkedLoop f1 cc (List.range f1.len)

end XonixField

/-! ## Collision probing (`Entity.update` / `checkCollision`) -/

/-- `interface Collision`. -/
structure Collision where
  x : ℤ
  y : ℤ
  currentCellState : CellState
  collidedCellState : Option CellState
  collidedEntity : Option Entity
deriving DecidableEq, Repr

/-- `checkCollisionForPosition(provider, predicate, collisionFactory, currentCellState, x, y)`:
probe one candidate cell; build a `Collision` when the predicate fires.
The factory returns the `Partial<Collision>` spread as a
`(collidedCellState, collidedEntity)` pair. -/
def checkCollisionForPosition {T : Type} (provider : ℤ → ℤ → T)
    (predicate : T → Bool) (collisionFactory : T → Option CellState × Option Entity)
    (currentCellState : CellState) (x y : ℤ) : Option Collision :=
  let nextCell := provider x y
  if predicate nextCell then
    some { x := x, y := y, currentCellState := currentCellState
           collidedCellState := (collisionFactory nextCell).1
           collidedEntity := (collisionFactory nextCell).2 }
  else none

/-- `checkCollisions(...)`: one provider probed at the three candidate
cells `(nextX, currY)`, `(currX, nextY)`, `(nextX, nextY)` in that order,
short-circuiting on the first hit (`a || b` on objects = `Option.orElse`). -/
def checkCollisions {T : Type} (provider : ℤ → ℤ → T)
    (predicate : T → Bool) (collisionFactory : T → Option CellState × Option Entity)
    (currentCellState : CellState) (currX currY nextX nextY : ℤ) : Option Collision :=
  (checkCollisionForPosition provider predicate collisionFactory currentCellState
      nextX currY).orElse fun _ =>
  (checkCollisionForPosition provider predicate collisionFactory currentCellState
      currX nextY).orElse fun _ =>
  checkCollisionForPosition provider predicate collisionFactory currentCellState
      nextX nextY

/-- `class XonixLevel` — the parts of its state the claims touch.
(Colors, background and the timer wiring are rendering/scheduling shell.) -/
structure XonixLevel where
  field : XonixField
  enemies : List Entity
  player : Entity
  defaultPlayerPosition : XY
  claimRatioWin : ℚ

namespace XonixLevel

/-- `get entities() { return [this.player, ...this.enemies]; }` -/
def entities (lvl : XonixLevel) : List Entity := lvl.player :: lvl.enemies

end XonixLevel

namespace Entity

/-- The cell-lookup provider's predicate: `item => currCell !== item`. -/
def cellPredicate (currCell : CellState) (item : CellState) : Bool :=
  decide (currCell ≠ item)

/-- The entity-lookup provider:
`(x, y) => level.entities.find(entity => !entity.position.differRounded(x, y))`. -/
def entityProvider (level : XonixLevel) (x y : ℤ) : Option Entity :=
  level.entities.find? (fun e => !(e.position.differRounded x y))

/-- The entity-lookup predicate: `item => !!item && item !== this`.
JS object identity (`!==`) is modelled by the `id` tag. -/
def entityPredicate (self : Entity) (item : Option Entity) : Bool :=
  match item with
  | some e => decide (e.id ≠ self.id)
  | none => false

/-- `Entity.checkCollision(level, currX, currY, nextX, nextY)`:
the cell-lookup pass over all three candidates, then (only if it found
nothing) the entity-lookup pass over all three candidates. -/
def checkCollision (self : Entity) (level : XonixLevel)
    (currX currY nextX nextY : ℤ) : Option Collision :=
  let field := level.field
  let currCell := field.getCell currX currY
  (checkCollisions (fun x y => field.getCell x y)
      (cellPredicate currCell)
      (fun item => (some item, none))
      currCell currX currY nextX nextY).orElse fun _ =>
    checkCollisions (entityProvider level)
      (entityPredicate self)
      (fun item => (none, item))
      currCell currX currY nextX nextY

/-- The probing stage of `Entity.update(delta, level)`: the continuous next
position and the floored current/next coordinates handed to `checkCollision`. -/
def updateProbe (self : Entity) (delta : ℚ) (level : XonixLevel) : Option Collision :=
  let deltaSpeed := self.speed * delta
  let currX := self.position.x
  let currY := self.position.y
  let nextX := currX + self.direction.x * deltaSpeed
  let nextY := currY + self.direction.y * deltaSpeed
  self.checkCollision level ⌊currX⌋ ⌊currY⌋ ⌊nextX⌋ ⌊nextY⌋

end Entity

/-- `Enemy.onCollision(level, collision)`: reflect the direction on each
axis whose candidate coordinate differs from the current rounded
coordinate; report whether `level.die()` was invoked
(`collidedState === CLAIMING || collidedEntity instanceof Player`). -/
def enemyOnCollision (self : Entity) (collision : Collision) : Entity × Bool :=
  let playerCollided : Bool :=
    match collision.collidedEntity with
    | some e => decide (e.kind = EntityKind.player)
    | none => false
  let notVerticalCollide : Bool := decide (collision.x ≠ self.position.xRounded)
  let notHorizontalCollide : Bool := decide (collision.y ≠ self.position.yRounded)
  let dir1 := if notVerticalCollide
    then { x := self.direction.x * (-1), y := self.direction.y }
    else self.direction
  let dir2 := if notHorizontalCollide
    then { x := dir1.x, y := dir1.y * (-1) }
    else dir1
  ({ self with direction := dir2 },
   decide (collision.collidedCellState = some CLAIMING) || playerCollided)

/-! ## Level transitions (`die`, `claim`) and notifications -/

/-- The zero-payload notifications a level can fire, in firing order. -/
inductive Notif where
  | won
  | died
  | lost
deriving DecidableEq, Repr

namespace XonixLevel

/-- `die()`: `lives--` ; fire `died` ; `speed = 0` ; reset position to the
default spawn ; `field.clearClaiming()` ; fire `lost` if `lives < 0`.
Returns the new level and the notifications in firing order. -/
def die (lvl : XonixLevel) : XonixLevel × List Notif :=
  let lives1 := lvl.player.lives - 1
  let player1 := { lvl.player with
    lives := lives1
    speed := 0
    position := lvl.defaultPlayerPosition }
  ({ lvl with player := player1, field := lvl.field.clearClaiming },
   Notif.died :: (if lives1 < 0 then [Notif.lost] else []))

/-- `claim()`: `field.claim(enemies)` then fire `won` when
`claimedRatio() > claimRatioWin` (a `NaN` ratio compares false in JS,
hence the `none` branch fires nothing). -/
def claim (lvl : XonixLevel) : XonixLevel × List Notif :=
  let field1 := lvl.field.claim lvl.enemies
  ({ lvl with field := field1 },
   match field1.claimedRatio with
   | some r => if lvl.claimRatioWin < r then [Notif.won] else []
   | none => [])

end XonixLevel

/-! ## `class XonixTimer` -/

/-- Timer state: the seconds counter, the configured direction, and the
pause gate.  The underlying `setInterval` schedule keeps firing while
paused; each fire is modelled by `tick`. -/
structure XonixTimer where
  seconds : ℤ
  countdown : Bool
  paused : Bool
deriving DecidableEq, Repr

namespace XonixTimer

/-- A freshly constructed timer (`seconds = 0`, not paused, no direction). -/
def fresh : XonixTimer := { seconds := 0, countdown := false, paused := false }

/-- `start(countdown, startSeconds)`: a paused timer just resumes;
otherwise `stop()` then `seconds = startSeconds` and the interval begins
with the configured increment. -/
def start (t : XonixTimer) (countdown : Bool) (startSeconds : ℤ) : XonixTimer :=
  if t.paused then { t with paused := false }
  else { seconds := startSeconds, countdown := countdown, paused := t.paused }

/-- One firing of the interval callback: a no-op while paused; otherwise
`seconds += increment`, and when counting down below zero fire time-up
(the returned flag) and `pause()`. -/
def tick (t : XonixTimer) : XonixTimer × Bool :=
  if t.paused then (t, false)
  else
    let s := t.seconds + (if t.countdown then -1 else 1)
    if t.countdown ∧ s < 0 then ({ t with seconds := s, paused := true }, true)
    else ({ t with seconds := s }, false)

/-- The duration `toString()` renders:
`formatDate(Math.max(0, this.seconds) * 1000, "mm:ss", "en")` — the
seconds value after the clamp. -/
def displayedSeconds (t : XonixTimer) : ℤ := max 0 t.seconds

end XonixTimer

/-! ## Pointwise characterization of the field loops -/

namespace XonixField

theorem setCellDirect_cells (f : XonixField) (v : CellState) (i j : ℕ) :
    (f.setCellDirect v i).cells j = if j = i then v else f.cells j := rfl

theorem setCellDirect_width (f : XonixField) (v : CellState) (i : ℕ) :
    (f.setCellDirect v i).width = f.width := rfl

theorem setCellDirect_height (f : XonixField) (v : CellState) (i : ℕ) :
    (f.setCellDirect v i).height = f.height := rfl

theorem setCellDirect_len (f : XonixField) (v : CellState) (i : ℕ) :
    (f.setCellDirect v i).len = f.len := rfl

theorem clearClaimingLoop_width (f : XonixField) (l : List ℕ) :
    (f.clearClaimingLoop l).width = f.width := by
  induction l generalizing f with
  | nil => rfl
  | cons i rest ih => rw [clearClaimingLoop]; rw [ih]; split <;> rfl

theorem clearClaimingLoop_height (f : XonixField) (l : List ℕ) :
    (f.clearClaimingLoop l).height = f.height := by
  induction l generalizing f with
  | nil => rfl
  | cons i rest ih => rw [clearClaimingLoop]; rw [ih]; split <;> rfl

theorem clearClaimingLoop_cells (f : XonixField) (l : List ℕ) (p : ℕ) :
    (f.clearClaimingLoop l).cells p =
      if p ∈ l ∧ f.cells p = CLAIMING then UNCLAIMED else f.cells p := by
  induction l generalizing f with
  | nil => simp [clearClaimingLoop]
  | cons i rest ih =>
    rw [clearClaimingLoop, ih]
    by_cases hpi : p = i
    · subst hpi
      by_cases hc : f.cells p = CLAIMING
      · simp [hc, setCellDirect_cells]
      · simp [hc]
    · by_cases hc : f.cells i = CLAIMING
      · simp only [hc, if_true]
        rw [setCellDirect_cells]
        simp only [hpi, if_false]
        by_cases hm : p ∈ rest <;> simp [hm, hpi, List.mem_cons]
      · simp only [hc, if_false]
        by_cases hm : p ∈ rest <;> simp [hm, hpi, List.mem_cons]

theorem clearClaiming_cells (f : XonixField) (p : ℕ) (hp : p < f.len) :
    f.clearClaiming.cells p =
      if f.cells p = CLAIMING then UNCLAIMED else f.cells p := by
  rw [clearClaiming, clearClaimingLoop_cells]
  simp [List.mem_range, hp]

theorem sealLoop_width (f : XonixField) (l : List ℕ) :
    (f.sealLoop l).width = f.width := by
  induction l generalizing f with
  | nil => rfl
  | cons i rest ih => rw [sealLoop]; rw [ih]; split <;> rfl

theorem sealLoop_height (f : XonixField) (l : List ℕ) :
    (f.sealLoop l).height = f.height := by
  induction l generalizing f with
  | nil => rfl
  | cons i rest ih => rw [sealLoop]; rw [ih]; split <;> rfl

theorem sealLoop_cells (f : XonixField) (l : List ℕ) (p : ℕ) :
    (f.sealLoop l).cells p =
      if p ∈ l ∧ f.cells p = CLAIMING then CLAIMED else f.cells p := by
  induction l generalizing f with
  | nil => simp [sealLoop]
  | cons i rest ih =>
    rw [sealLoop, ih]
    by_cases hpi : p = i
    · subst hpi
      by_cases hc : f.cells p = CLAIMING
      · simp [hc, setCellDirect_cells]
      · simp [hc]
    · by_cases hc : f.cells i = CLAIMING
      · simp only [hc, if_true]
        rw [setCellDirect_cells]
        simp only [hpi, if_false]
        by_cases hm : p ∈ rest <;> simp [hm, hpi, List.mem_cons]
      · simp only [hc, if_false]
        by_cases hm : p ∈ rest <;> simp [hm, hpi, List.mem_cons]

theorem sealTrail_width (f : XonixField) : f.sealTrail.width = f.width :=
  sealLoop_width f _

theorem sealTrail_height (f : XonixField) : f.sealTrail.height = f.height :=
  sealLoop_height f _

theorem sealTrail_len (f : XonixField) : f.sealTrail.len = f.len := by
  unfold len
  rw [sealTrail_width, sealTrail_height]

theorem sealTrail_cells (f : XonixField) (p : ℕ) (hp : p < f.len) :
    f.sealTrail.cells p =
      if f.cells p = CLAIMING then CLAIMED else f.cells p := by
  rw [sealTrail, sealLoop_cells]
  simp [List.mem_range, hp]

theorem sealTrail_cells_out (f : XonixField) (p : ℕ) (hp : ¬ p < f.len) :
    f.sealTrail.cells p = f.cells p := by
  rw [sealTrail, sealLoop_cells]
  simp [List.mem_range, hp]

theorem claimMarkedLoop_width (f : XonixField) (cc : ℕ → Bool) (l : List ℕ) :
    (f.claimMarkedLoop cc l).width = f.width := by
  induction l generalizing f with
  | nil => rfl
  | cons i rest ih => rw [claimMarkedLoop]; rw [ih]; split <;> rfl

theorem claimMarkedLoop_height (f : XonixField) (cc : ℕ → Bool) (l : List ℕ) :
    (f.claimMarkedLoop cc l).height = f.height := by
  induction l generalizing f with
  | nil => rfl
  | cons i rest ih => rw [claimMarkedLoop]; rw [ih]; split <;> rfl

theorem claimMarkedLoop_cells (f : XonixField) (cc : ℕ → Bool) (l : List ℕ) (p : ℕ) :
    (f.claimMarkedLoop cc l).cells p =
      if p ∈ l ∧ cc p = true then CLAIMED else f.cells p := by
  induction l generalizing f with
  | nil => simp [claimMarkedLoop]
  | cons i rest ih =>
    rw [claimMarkedLoop, ih]
    by_cases hpi : p = i
    · subst hpi
      by_cases hc : cc p
      · simp [hc, setCellDirect_cells]
      · simp [hc]
    · by_cases hc : cc i
      · simp only [hc, if_true]
        rw [setCellDirect_cells]
        simp only [hpi, if_false]
        by_cases hm : p ∈ rest <;> simp [hm, hpi, List.mem_cons]
      · simp only [hc, Bool.false_eq_true, if_false]
        by_cases hm : p ∈ rest <;> simp [hm, hpi, List.mem_cons]

/-- The could-claim mask `claim` ends up feeding phase 3. -/
def claimMask (f : XonixField) (enemies : List Entity) : ℕ → Bool :=
  enemies.foldl (fun cc e => startScan f.sealTrail cc e.position.x e.position.y)
    (fun _ => true)

theorem claim_cells (f : XonixField) (enemies : List Entity) (p : ℕ) (hp : p < f.len) :
    (f.claim enemies).cells p =
      if f.claimMask enemies p = true then CLAIMED else f.sealTrail.cells p := by
  rw [claim, claimMarkedLoop_cells]
  simp [claimMask, List.mem_range, sealTrail_len, hp]

theorem claim_width (f : XonixField) (enemies : List Entity) :
    (f.claim enemies).width = f.width := by
  rw [claim, claimMarkedLoop_width, sealTrail_width]

theorem claim_height (f : XonixField) (enemies : List Entity) :
    (f.claim enemies).height = f.height := by
  rw [claim, claimMarkedLoop_height, sealTrail_height]

end XonixField

/-! ## Reachability: what the span fill is meant to compute

Flat row-major indices encode cells: index `i` is cell
`(i % width, i / width)`.  Two indices are 4-adjacent when they are
horizontal neighbours inside one row or vertical neighbours one full row
apart. -/

namespace XonixField

/-- An in-range cell that is not `CLAIMED` (the fill can pass through it). -/
def OpenCell (f : XonixField) (i : ℕ) : Prop :=
  i < f.len ∧ f.cells i ≠ CLAIMED

/-- 4-adjacency of flat row-major indices. -/
def Adj (f : XonixField) (a b : ℕ) : Prop :=
  (a / f.width = b / f.width ∧ (a + 1 = b ∨ b + 1 = a)) ∨
    a + f.width = b ∨ b + f.width = a

theorem adj_symm {f : XonixField} {a b : ℕ} (h : f.Adj a b) : f.Adj b a := by
  rcases h with ⟨hrow, hstep⟩ | h | h
  · exact Or.inl ⟨hrow.symm, hstep.symm⟩
  · exact Or.inr (Or.inr h)
  · exact Or.inr (Or.inl h)

/-- 4-connected reachability through open (non-`CLAIMED`, in-range) cells. -/
def Reaches (f : XonixField) (s p : ℕ) : Prop :=
  Relation.ReflTransGen (fun a b => f.OpenCell a ∧ f.OpenCell b ∧ f.Adj a b) s p

/-- Reachable from some seed in the list whose own cell is open. -/
def ReachableFromSeeds (f : XonixField) (seeds : List ℕ) (p : ℕ) : Prop :=
  ∃ s ∈ seeds, f.OpenCell s ∧ f.Reaches s p

theorem reaches_open {f : XonixField} {s p : ℕ} (hs : f.OpenCell s)
    (h : f.Reaches s p) : f.OpenCell p := by
  induction h with
  | refl => exact hs
  | tail _ hstep ih => exact hstep.2.1

theorem reachableFromSeeds_open {f : XonixField} {seeds : List ℕ} {p : ℕ}
    (h : f.ReachableFromSeeds seeds p) : f.OpenCell p := by
  obtain ⟨s, _, hs, hreach⟩ := h
  exact reaches_open hs hreach

theorem reachableFromSeeds_step {f : XonixField} {seeds : List ℕ} {a b : ℕ}
    (ha : f.ReachableFromSeeds seeds a) (hb : f.OpenCell b) (hadj : f.Adj a b) :
    f.ReachableFromSeeds seeds b := by
  obtain ⟨s, hmem, hs, hreach⟩ := ha
  exact ⟨s, hmem, hs,
    Relation.ReflTransGen.tail hreach ⟨reaches_open hs hreach, hb, hadj⟩⟩

theorem reachableFromSeeds_mono {f : XonixField} {seeds seeds2 : List ℕ} {p : ℕ}
    (hsub : ∀ s ∈ seeds, s ∈ seeds2) (h : f.ReachableFromSeeds seeds p) :
    f.ReachableFromSeeds seeds2 p := by
  obtain ⟨s, hmem, hs, hreach⟩ := h
  exact ⟨s, hsub s hmem, hs, hreach⟩

theorem stopN_congr {f : XonixField} {cc cc2 : ℕ → Bool} {i : ℕ}
    (h : cc i = cc2 i) : stopN f cc i = stopN f cc2 i := by
  unfold stopN
  rw [h]

/-- Full specification of the leftward arm. -/
theorem scanLeft_spec (f : XonixField) (cc : ℕ → Bool) (rowStart j : ℕ)
    (hrs : rowStart ≤ j) :
    ((rowStart : ℤ) - 1 ≤ (scanLeft f cc rowStart j).2 ∧
      (scanLeft f cc rowStart j).2 ≤ (j : ℤ)) ∧
    (∀ k : ℕ, (scanLeft f cc rowStart j).1 k =
      if (scanLeft f cc rowStart j).2 < (k : ℤ) ∧ k ≤ j then false else cc k) ∧
    (∀ k : ℕ, (scanLeft f cc rowStart j).2 < (k : ℤ) → k ≤ j →
      k < f.len ∧ f.cells k ≠ CLAIMED ∧ cc k = true) ∧
    ((scanLeft f cc rowStart j).2 = (rowStart : ℤ) - 1 ∨
      (0 ≤ (scanLeft f cc rowStart j).2 ∧
        stopN f cc (scanLeft f cc rowStart j).2.toNat = true)) := by
  induction j using Nat.strong_induction_on generalizing cc with
  | _ j ih =>
    rw [scanLeft]
    by_cases hs : stopN f cc j
    · simp only [hs, if_true]
      refine ⟨⟨by omega, le_refl _⟩, ?_, ?_, Or.inr ⟨by omega, by simpa using hs⟩⟩
      · intro k
        rw [if_neg (show ¬((j : ℤ) < (k : ℤ) ∧ k ≤ j) from by omega)]
      · intro k hk1 hk2
        omega
    · simp only [hs, Bool.false_eq_true, if_false]
      by_cases hj : j ≤ rowStart
      · have hjeq : j = rowStart := le_antisymm hj hrs
        simp only [hj, if_true]
        refine ⟨⟨by omega, by omega⟩, ?_, ?_, Or.inl trivial⟩
        · intro k
          by_cases hk : k = j
          · rw [if_pos hk, if_pos (show (rowStart : ℤ) - 1 < (k : ℤ) ∧ k ≤ j from by omega)]
          · rw [if_neg hk,
              if_neg (show ¬((rowStart : ℤ) - 1 < (k : ℤ) ∧ k ≤ j) from by omega)]
        · intro k hk1 hk2
          have hkj : k = j := by omega
          subst hkj
          exact stopN_eq_false.mp (by simpa using hs)
      · simp only [hj, if_false]
        have hrs2 : rowStart ≤ j - 1 := by omega
        have hind := ih (j - 1) (by omega) (fun k => if k = j then false else cc k) hrs2
        set r := scanLeft f (fun k => if k = j then false else cc k) rowStart (j - 1) with hr
        obtain ⟨⟨hb1, hb2⟩, hchar, hmarked, hexit⟩ := hind
        simp only at hchar hmarked hexit
        have hb2z : r.2 < (j : ℤ) := by omega
        refine ⟨⟨hb1, by omega⟩, ?_, ?_, ?_⟩
        · intro k
          rw [hchar k]
          by_cases hk : k = j
          · rw [if_neg (show ¬(r.2 < (k : ℤ) ∧ k ≤ j - 1) from by omega), if_pos hk,
              if_pos (show r.2 < (k : ℤ) ∧ k ≤ j from by omega)]
          · by_cases hcond : r.2 < (k : ℤ) ∧ k ≤ j - 1
            · rw [if_pos hcond, if_pos (show r.2 < (k : ℤ) ∧ k ≤ j from by omega)]
            · rw [if_neg hcond, if_neg hk,
                if_neg (show ¬(r.2 < (k : ℤ) ∧ k ≤ j) from by omega)]
        · intro k hk1 hk2
          by_cases hk : k = j
          · subst hk
            exact stopN_eq_false.mp (by simpa using hs)
          · have hm := hmarked k hk1 (by omega)
            refine ⟨hm.1, hm.2.1, ?_⟩
            have h3 := hm.2.2
            simpa [hk] using h3
        · rcases hexit with h | ⟨h1, h2⟩
          · exact Or.inl h
          · refine Or.inr ⟨h1, ?_⟩
            rw [← h2]
            apply stopN_congr
            have hne : r.2.toNat ≠ j := by omega
            simp [hne]

/-- Full specification of the rightward arm. -/
theorem scanRight_spec (f : XonixField) (cc : ℕ → Bool) (rowEnd j : ℕ) :
    (j ≤ (scanRight f cc rowEnd j).2 ∧
      (scanRight f cc rowEnd j).2 ≤ max j (rowEnd + 1)) ∧
    (∀ k : ℕ, (scanRight f cc rowEnd j).1 k =
      if j ≤ k ∧ k < (scanRight f cc rowEnd j).2 then false else cc k) ∧
    (∀ k : ℕ, j ≤ k → k < (scanRight f cc rowEnd j).2 →
      k < f.len ∧ f.cells k ≠ CLAIMED ∧ cc k = true) ∧
    (rowEnd < (scanRight f cc rowEnd j).2 ∨
      stopN f cc (scanRight f cc rowEnd j).2 = true) := by
  generalize hm : rowEnd + 1 - j = m
  induction m using Nat.strong_induction_on generalizing cc j with
  | _ m ih =>
    rw [scanRight]
    by_cases hj : rowEnd < j
    · simp only [hj, if_true]
      refine ⟨⟨le_refl _, by omega⟩, ?_, ?_, Or.inl trivial⟩
      · intro k
        rw [if_neg (show ¬(j ≤ k ∧ k < j) from by omega)]
      · intro k hk1 hk2
        omega
    · simp only [hj, if_false]
      by_cases hs : stopN f cc j
      · simp only [hs, if_true]
        refine ⟨⟨le_refl _, by omega⟩, ?_, ?_, Or.inr trivial⟩
        · intro k
          rw [if_neg (show ¬(j ≤ k ∧ k < j) from by omega)]
        · intro k hk1 hk2
          omega
      · simp only [hs, Bool.false_eq_true, if_false]
        have hind := ih (rowEnd + 1 - (j + 1)) (by omega)
          (fun k => if k = j then false else cc k) (j + 1) rfl
        set r := scanRight f (fun k => if k = j then false else cc k) rowEnd (j + 1) with hr
        obtain ⟨⟨hb1, hb2⟩, hchar, hmarked, hexit⟩ := hind
        simp only at hchar hmarked hexit
        refine ⟨⟨by omega, by omega⟩, ?_, ?_, ?_⟩
        · intro k
          rw [hchar k]
          by_cases hk : k = j
          · rw [if_neg (show ¬(j + 1 ≤ k ∧ k < r.2) from by omega), if_pos hk,
              if_pos (show j ≤ k ∧ k < r.2 from by omega)]
          · by_cases hcond : j + 1 ≤ k ∧ k < r.2
            · rw [if_pos hcond, if_pos (show j ≤ k ∧ k < r.2 from by omega)]
            · rw [if_neg hcond, if_neg hk,
                if_neg (show ¬(j ≤ k ∧ k < r.2) from by omega)]
        · intro k hk1 hk2
          by_cases hk : k = j
          · subst hk
            exact stopN_eq_false.mp (by simpa using hs)
          · have hm2 := hmarked k (by omega) hk2
            refine ⟨hm2.1, hm2.2.1, ?_⟩
            have h3 := hm2.2.2
            simpa [hk] using h3
        · rcases hexit with h | h
          · exact Or.inl h
          · refine Or.inr ?_
            rw [← h]
            apply stopN_congr
            have hne : r.2 ≠ j := by omega
            simp [hne]


theorem mem_pushesFor {f : XonixField} {cc : ℕ → Bool} {i b : ℕ} :
    b ∈ pushesFor f cc i ↔
      (stopZ f cc ((i : ℤ) - f.width) = false ∧ b = ((i : ℤ) - f.width).toNat) ∨
      (stopN f cc (i + f.width) = false ∧ b = i + f.width) := by
  unfold pushesFor
  by_cases h1 : stopZ f cc ((i : ℤ) - f.width) <;>
    by_cases h2 : stopN f cc (i + f.width) <;>
    simp [h1, h2]

theorem mem_pushes {f : XonixField} {cc : ℕ → Bool} {lo hi b : ℕ} :
    b ∈ pushes f cc lo hi ↔
      ∃ i, lo ≤ i ∧ i < lo + (hi - lo) ∧ b ∈ pushesFor f cc i := by
  unfold pushes
  rw [List.mem_flatMap]
  constructor
  · rintro ⟨i, hmem, hb⟩
    have := List.mem_range'_1.mp hmem
    exact ⟨i, this.1, this.2, hb⟩
  · rintro ⟨i, h1, h2, hb⟩
    exact ⟨i, List.mem_range'_1.mpr ⟨h1, h2⟩, hb⟩

theorem spanLoop_nil (f : XonixField) (cc : ℕ → Bool) : spanLoop f cc [] = cc := by
  rw [spanLoop]

theorem spanLoop_cons_stop {f : XonixField} {cc : ℕ → Bool} {c : ℕ} {rest : List ℕ}
    (h : stopN f cc c = true) : spanLoop f cc (c :: rest) = spanLoop f cc rest := by
  rw [spanLoop]
  simp [h]

theorem spanLoop_cons_go {f : XonixField} {cc : ℕ → Bool} {c : ℕ} {rest : List ℕ}
    (h : stopN f cc c = false) :
    spanLoop f cc (c :: rest) =
      spanLoop f
        (scanRight f (scanLeft f cc (c / f.width * f.width) c).1
          (f.width - 1 + c / f.width * f.width) (c + 1)).1
        ((pushes f
            (scanRight f (scanLeft f cc (c / f.width * f.width) c).1
              (f.width - 1 + c / f.width * f.width) (c + 1)).1
            ((scanLeft f cc (c / f.width * f.width) c).2 + 1).toNat
            (scanRight f (scanLeft f cc (c / f.width * f.width) c).1
              (f.width - 1 + c / f.width * f.width) (c + 1)).2).reverse ++ rest) := by
  rw [spanLoop]
  simp [h]

theorem spanLoop_false_mono {f : XonixField} {cc : ℕ → Bool} {stack : List ℕ}
    {i : ℕ} (h : cc i = false) : spanLoop f cc stack i = false := by
  induction cc, stack using spanLoop.induct f with
  | case1 cc => rwa [spanLoop_nil]
  | case2 cc c rest hstop ih => rw [spanLoop_cons_stop hstop]; exact ih h
  | case3 cc c rest hstop y rowStart rowEnd left right cc2 ps ih =>
    rw [spanLoop_cons_go (by simpa using hstop)]
    exact ih (scanRight_false_mono (scanLeft_false_mono h))

theorem spanLoop_marks_head {f : XonixField} {cc : ℕ → Bool} {c : ℕ} {rest : List ℕ}
    (h : stopN f cc c = false) : spanLoop f cc (c :: rest) c = false := by
  rw [spanLoop_cons_go h]
  exact spanLoop_false_mono (scanRight_false_mono (scanLeft_marks_start h))

/-- Loop invariant of the span fill, relative to a predicate `R` (the cells
the fill is allowed to deem enemy-reachable) closed under steps through
open cells. -/
structure ScanInv (f : XonixField) (R : ℕ → Prop) (cc : ℕ → Bool)
    (stack : List ℕ) : Prop where
  sound : ∀ i, i < f.len → cc i = false → f.OpenCell i ∧ R i
  stackR : ∀ c ∈ stack, f.OpenCell c → R c
  covered : ∀ a b, a < f.len → cc a = false → f.OpenCell b → cc b = true →
    f.Adj a b → b ∈ stack

theorem spanBody_inv (f : XonixField) (R : ℕ → Prop)
    (hR : ∀ a b, R a → f.OpenCell b → f.Adj a b → R b)
    (cc : ℕ → Bool) (c : ℕ) (rest : List ℕ)
    (hstop : stopN f cc c = false)
    (hinv : ScanInv f R cc (c :: rest)) :
    ScanInv f R
      (scanRight f (scanLeft f cc (c / f.width * f.width) c).1
        (f.width - 1 + c / f.width * f.width) (c + 1)).1
      ((pushes f
          (scanRight f (scanLeft f cc (c / f.width * f.width) c).1
            (f.width - 1 + c / f.width * f.width) (c + 1)).1
          ((scanLeft f cc (c / f.width * f.width) c).2 + 1).toNat
          (scanRight f (scanLeft f cc (c / f.width * f.width) c).1
            (f.width - 1 + c / f.width * f.width) (c + 1)).2).reverse ++ rest) := by
  obtain ⟨hclen, hccell, hcctrue⟩ := stopN_eq_false.mp hstop
  have hlen_def : f.len = f.width * f.height := rfl
  have hw : 0 < f.width := by
    rcases Nat.eq_zero_or_pos f.width with h0 | h
    · exfalso
      have : f.len = 0 := by rw [hlen_def, h0, Nat.zero_mul]
      omega
    · exact h
  set y := c / f.width with hy
  set rowStart := y * f.width with hrowStart
  set rowEnd := f.width - 1 + y * f.width with hrowEnd
  have hdm : f.width * y + c % f.width = c := Nat.div_add_mod c f.width
  have hmod : c % f.width < f.width := Nat.mod_lt _ hw
  have hcomm : f.width * y = y * f.width := Nat.mul_comm _ _
  have hrs_le : rowStart ≤ c := by omega
  have hre : c ≤ rowEnd := by omega
  have hyh : y < f.height := by
    rw [hy]
    rw [Nat.div_lt_iff_lt_mul hw]
    have : f.height * f.width = f.width * f.height := Nat.mul_comm _ _
    omega
  have hsucc : (y + 1) * f.width = y * f.width + f.width := Nat.succ_mul y f.width
  have hmul_le : (y + 1) * f.width ≤ f.height * f.width :=
    Nat.mul_le_mul_right f.width (by omega)
  have hcomm3 : f.height * f.width = f.width * f.height := Nat.mul_comm _ _
  have hrow_lt_len : rowEnd < f.len := by omega
  have hrowdiv : ∀ k, rowStart ≤ k → k ≤ rowEnd → k / f.width = y := by
    intro k h1 h2
    exact Nat.div_eq_of_lt_le (by omega) (by omega)
  obtain ⟨⟨hlx1, hlx2⟩, hLchar, hLmark, hLexit⟩ := scanLeft_spec f cc rowStart c hrs_le
  obtain ⟨⟨hrx1, hrx2⟩, hRchar, hRmark, hRexit⟩ :=
    scanRight_spec f (scanLeft f cc rowStart c).1 rowEnd (c + 1)
  set L := scanLeft f cc rowStart c with hLdef
  set RT := scanRight f L.1 rowEnd (c + 1) with hRTdef
  have hrxle : RT.2 ≤ rowEnd + 1 := by
    have hmx : max (c + 1) (rowEnd + 1) = rowEnd + 1 := max_eq_right (by omega)
    omega
  have hlxc : L.2 < (c : ℤ) := by
    have h1 := @scanLeft_marks_start f cc rowStart c hstop
    have h2 := hLchar c
    rw [h1] at h2
    by_contra hcon
    rw [if_neg (by omega)] at h2
    exact absurd h2.symm (by simp [hcctrue])
  have hcc2char : ∀ k : ℕ, RT.1 k =
      if L.2 < (k : ℤ) ∧ k < RT.2 then false else cc k := by
    intro k
    rw [hRchar k]
    by_cases h1 : c + 1 ≤ k ∧ k < RT.2
    · rw [if_pos h1, if_pos (by omega)]
    · rw [if_neg h1, hLchar k]
      by_cases h2 : L.2 < (k : ℤ) ∧ k ≤ c
      · rw [if_pos h2, if_pos (by omega)]
      · rw [if_neg h2, if_neg (by omega)]
  have hspan : ∀ k : ℕ, L.2 < (k : ℤ) → k < RT.2 →
      k < f.len ∧ f.cells k ≠ CLAIMED ∧ cc k = true := by
    intro k h1 h2
    rcases le_or_lt k c with hkc | hkc
    · exact hLmark k h1 hkc
    · have hm := hRmark k (by omega) h2
      refine ⟨hm.1, hm.2.1, ?_⟩
      have h3 := hm.2.2
      rw [hLchar k, if_neg (by omega)] at h3
      exact h3
  have hspan_open : ∀ k : ℕ, L.2 < (k : ℤ) → k < RT.2 → f.OpenCell k := by
    intro k h1 h2
    exact ⟨(hspan k h1 h2).1, (hspan k h1 h2).2.1⟩
  have hRc : R c := hinv.stackR c (by simp) ⟨hclen, hccell⟩
  have hadj_lr : ∀ k : ℕ, rowStart ≤ k → k + 1 ≤ rowEnd → f.Adj k (k + 1) := by
    intro k h1 h2
    exact Or.inl ⟨by rw [hrowdiv k h1 (by omega), hrowdiv (k + 1) (by omega) h2],
      Or.inl rfl⟩
  have hspanR : ∀ k : ℕ, L.2 < (k : ℤ) → k < RT.2 → R k := by
    have hleft : ∀ m k, k + m = c → L.2 < (k : ℤ) → R k := by
      intro m
      induction m with
      | zero =>
        intro k hk _
        have : k = c := by omega
        rwa [this]
      | succ m ihm =>
        intro k hk hlk
        have hR1 : R (k + 1) := ihm (k + 1) (by omega) (by omega)
        have hopenk : f.OpenCell k := hspan_open k hlk (by omega)
        have hadj : f.Adj (k + 1) k := adj_symm (hadj_lr k (by omega) (by omega))
        exact hR (k + 1) k hR1 hopenk hadj
    have hright : ∀ m k, k = c + m → k < RT.2 → R k := by
      intro m
      induction m with
      | zero =>
        intro k hk _
        have : k = c := by omega
        rwa [this]
      | succ m ihm =>
        intro k hk hkrx
        have hR1 : R (c + m) := ihm (c + m) rfl (by omega)
        have hopenk : f.OpenCell k := hspan_open k (by omega) hkrx
        have hadj : f.Adj (c + m) k := by
          have : k = (c + m) + 1 := by omega
          rw [this]
          exact hadj_lr (c + m) (by omega) (by omega)
        exact hR (c + m) k hR1 hopenk hadj
    intro k h1 h2
    rcases le_or_lt k c with hkc | hkc
    · exact hleft (c - k) k (by omega) h1
    · exact hright (k - c) k (by omega) h2
  -- the three invariant clauses for the new mask and stack
  refine ⟨?_, ?_, ?_⟩
  · -- sound
    intro i hilen hfalse
    rw [hcc2char i] at hfalse
    by_cases hcond : L.2 < (i : ℤ) ∧ i < RT.2
    · exact ⟨hspan_open i hcond.1 hcond.2, hspanR i hcond.1 hcond.2⟩
    · rw [if_neg hcond] at hfalse
      exact hinv.sound i hilen hfalse
  · -- stackR
    intro b hb hopenb
    rcases List.mem_append.mp hb with hps | hrest
    · rw [List.mem_reverse] at hps
      obtain ⟨i, hi1, hi2, hifor⟩ := mem_pushes.mp hps
      have hloz : (((L.2 + 1).toNat : ℤ)) = L.2 + 1 := Int.toNat_of_nonneg (by omega)
      have hlorx : (L.2 + 1).toNat ≤ RT.2 := by omega
      have hispan : L.2 < (i : ℤ) ∧ i < RT.2 := by
        constructor
        · omega
        · omega
      have hRi : R i := hspanR i hispan.1 hispan.2
      rcases mem_pushesFor.mp hifor with ⟨habove, hbval⟩ | ⟨hbelow, hbval⟩
      · -- above push: b + width = i
        have hinn : ¬ ((i : ℤ) - f.width < 0) := by
          by_contra hneg
          rw [stopZ, if_pos (by omega)] at habove
          exact absurd habove (by simp)
        have hbw : b + f.width = i := by omega
        have hadj : f.Adj i b := Or.inr (Or.inr hbw)
        exact hR i b hRi hopenb hadj
      · -- below push: i + width = b
        have hadj : f.Adj i b := Or.inr (Or.inl (by omega))
        exact hR i b hRi hopenb hadj
    · exact hinv.stackR b (List.mem_cons_of_mem c hrest) hopenb
  · -- covered
    intro a b halen hafalse hopenb hbtrue hadj
    have hbspan_not : ¬ (L.2 < (b : ℤ) ∧ b < RT.2) := by
      intro hcon
      rw [hcc2char b, if_pos hcon] at hbtrue
      exact absurd hbtrue (by simp)
    have hbcc : cc b = true := by
      rw [hcc2char b, if_neg hbspan_not] at hbtrue
      exact hbtrue
    by_cases hacc : cc a = false
    · have hmem := hinv.covered a b halen hacc hopenb hbcc hadj
      rcases List.mem_cons.mp hmem with hbc | hbrest
      · exfalso
        apply hbspan_not
        rw [hbc]
        exact ⟨hlxc, by omega⟩
      · exact List.mem_append.mpr (Or.inr hbrest)
    · have haspan : L.2 < (a : ℤ) ∧ a < RT.2 := by
        rw [hcc2char a] at hafalse
        by_contra hcon
        rw [if_neg hcon] at hafalse
        exact hacc hafalse
      have haopen := hspan_open a haspan.1 haspan.2
      rcases hadj with ⟨hrow, hstep⟩ | hvert | hvert
      · -- horizontal neighbour of a span cell: always a boundary, contradiction
        exfalso
        rcases hstep with hab | hba
        · -- b = a + 1, so b = RT.2
          have hbrx : b = RT.2 := by omega
          rcases hRexit with hover | hstopped
          · -- ran off the row end: rows differ
            have hb_eq : b = (y + 1) * f.width := by omega
            have hbdiv : b / f.width = y + 1 := by
              rw [hb_eq]
              exact Nat.mul_div_cancel (y + 1) hw
            have hadiv : a / f.width = y := hrowdiv a (by omega) (by omega)
            rw [hadiv, hbdiv] at hrow
            omega
          · -- stopped at RT.2: open-and-true contradicts the stop
            have hcc1b : L.1 b = true := by
              rw [hLchar b, if_neg (by omega)]
              exact hbcc
            rw [hbrx] at hcc1b
            have hblen : b < f.len := hopenb.1
            have hsf : stopN f L.1 RT.2 = false :=
              stopN_eq_false.mpr ⟨by omega, by rw [← hbrx]; exact hopenb.2, hcc1b⟩
            rw [hsf] at hstopped
            exact absurd hstopped (by simp)
        · -- b + 1 = a, so (b : ℤ) = L.2
          have hbl : (b : ℤ) = L.2 := by omega
          rcases hLexit with hedge | ⟨hpos, hstopped⟩
          · -- ran off the row start: rows differ (or negative index)
            have hb_eq : (b : ℤ) = (rowStart : ℤ) - 1 := by omega
            have hrs_pos : 1 ≤ rowStart := by omega
            have hbdiv : b / f.width < y := by
              rw [Nat.div_lt_iff_lt_mul hw]
              omega
            have hadiv : a / f.width = y := hrowdiv a (by omega) (by omega)
            rw [hadiv] at hrow
            omega
          · -- stopped at L.2: open-and-true contradicts the stop
            have hbeq : b = L.2.toNat := by omega
            have hsf : stopN f cc b = false :=
              stopN_eq_false.mpr ⟨hopenb.1, hopenb.2, hbcc⟩
            rw [hbeq] at hsf
            rw [hsf] at hstopped
            exact absurd hstopped (by simp)
      · -- b directly below a: a was pushed for
        refine List.mem_append.mpr (Or.inl (List.mem_reverse.mpr (mem_pushes.mpr ?_)))
        refine ⟨a, by omega, by omega, mem_pushesFor.mpr (Or.inr ⟨?_, by omega⟩)⟩
        rw [hvert]
        exact stopN_eq_false.mpr ⟨hopenb.1, hopenb.2, hbtrue⟩
      · -- b directly above a
        refine List.mem_append.mpr (Or.inl (List.mem_reverse.mpr (mem_pushes.mpr ?_)))
        refine ⟨a, by omega, by omega, mem_pushesFor.mpr (Or.inl ⟨?_, by omega⟩)⟩
        rw [stopZ, if_neg (by omega)]
        have hbeq : ((a : ℤ) - f.width).toNat = b := by omega
        rw [hbeq]
        exact stopN_eq_false.mpr ⟨hopenb.1, hopenb.2, hbtrue⟩

theorem spanLoop_inv (f : XonixField) (R : ℕ → Prop)
    (hR : ∀ a b, R a → f.OpenCell b → f.Adj a b → R b) :
    ∀ (cc : ℕ → Bool) (stack : List ℕ), ScanInv f R cc stack →
      ScanInv f R (spanLoop f cc stack) [] := by
  intro cc stack
  induction cc, stack using spanLoop.induct f with
  | case1 cc =>
    intro hinv
    rw [spanLoop_nil]
    exact hinv
  | case2 cc c rest hstop ih =>
    intro hinv
    rw [spanLoop_cons_stop hstop]
    apply ih
    refine ⟨hinv.sound, ?_, ?_⟩
    · intro b hb hopen
      exact hinv.stackR b (List.mem_cons_of_mem c hb) hopen
    · intro a b h1 h2 h3 h4 h5
      have hmem := hinv.covered a b h1 h2 h3 h4 h5
      rcases List.mem_cons.mp hmem with hbc | hbr
      · exfalso
        have hsf : stopN f cc c = false := stopN_eq_false.mpr
          ⟨by rw [← hbc]; exact h3.1, by rw [← hbc]; exact h3.2, by rw [← hbc]; exact h4⟩
        rw [hsf] at hstop
        exact absurd hstop (by simp)
      · exact hbr
  | case3 cc c rest hstop y rowStart rowEnd left right cc2 ps ih =>
    intro hinv
    have hstopF : stopN f cc c = false := by simpa using hstop
    rw [spanLoop_cons_go hstopF]
    apply ih
    exact spanBody_inv f R hR cc c rest hstopF hinv

theorem spanLoop_seed_char (f : XonixField) (seeds0 : List ℕ) (cc : ℕ → Bool) (s : ℕ)
    (hinv : ∀ i, i < f.len → (cc i = false ↔ f.ReachableFromSeeds seeds0 i)) :
    ∀ i, i < f.len →
      (spanLoop f cc [s] i = false ↔ f.ReachableFromSeeds (seeds0 ++ [s]) i) := by
  have hR : ∀ a b, f.ReachableFromSeeds (seeds0 ++ [s]) a → f.OpenCell b → f.Adj a b →
      f.ReachableFromSeeds (seeds0 ++ [s]) b := fun a b ha hb hadj =>
    reachableFromSeeds_step ha hb hadj
  have hstart : ScanInv f (f.ReachableFromSeeds (seeds0 ++ [s])) cc [s] := by
    refine ⟨?_, ?_, ?_⟩
    · intro i hilen hfalse
      have hr := (hinv i hilen).mp hfalse
      exact ⟨reachableFromSeeds_open hr,
        reachableFromSeeds_mono (fun t ht => List.mem_append.mpr (Or.inl ht)) hr⟩
    · intro t ht hopen
      have hts : t = s := by simpa using ht
      subst hts
      exact ⟨t, by simp, hopen, Relation.ReflTransGen.refl⟩
    · intro a b halen hafalse hopenb hbtrue hadj
      exfalso
      have hra := (hinv a halen).mp hafalse
      have hrb := reachableFromSeeds_step hra hopenb hadj
      have hbf := (hinv b hopenb.1).mpr hrb
      rw [hbf] at hbtrue
      exact absurd hbtrue (by simp)
  have hfin := spanLoop_inv f _ hR cc [s] hstart
  have hclosure : ∀ a b, f.OpenCell a → (spanLoop f cc [s]) a = false → f.OpenCell b →
      f.Adj a b → (spanLoop f cc [s]) b = false := by
    intro a b hoa hfa hob hadj
    cases hb : spanLoop f cc [s] b with
    | false => rfl
    | true =>
      have hmem := hfin.covered a b hoa.1 hfa hob hb hadj
      exact absurd hmem (by simp)
  have hpath : ∀ u v, f.Reaches u v → spanLoop f cc [s] u = false →
      spanLoop f cc [s] v = false := by
    intro u v hr
    induction hr with
    | refl => exact id
    | tail hsteps hstep ihp =>
      intro hu
      exact hclosure _ _ hstep.1 (ihp hu) hstep.2.1 hstep.2.2
  intro i hilen
  constructor
  · intro hfalse
    exact (hfin.sound i hilen hfalse).2
  · intro hr
    obtain ⟨t, htmem, htopen, htreach⟩ := hr
    have hseedfalse : spanLoop f cc [s] t = false := by
      rcases List.mem_append.mp htmem with ht0 | hts
      · have hcf : cc t = false :=
          (hinv t htopen.1).mpr ⟨t, ht0, htopen, Relation.ReflTransGen.refl⟩
        exact spanLoop_false_mono hcf
      · have hts2 : t = s := by simpa using hts
        subst hts2
        cases hcct : cc t with
        | false => exact spanLoop_false_mono hcct
        | true => exact spanLoop_marks_head (stopN_eq_false.mpr ⟨htopen.1, htopen.2, hcct⟩)
    exact hpath t i htreach hseedfalse

theorem startScan_eq_spanLoop {f : XonixField} {cc : ℕ → Bool} {x y : ℚ}
    (h : 0 ≤ f.efficientIndexQ x y ∧ (f.efficientIndexQ x y).den = 1) :
    startScan f cc x y = spanLoop f cc [(f.efficientIndexQ x y).num.toNat] := by
  rw [startScan, if_pos h]

theorem startScan_eq_self {f : XonixField} {cc : ℕ → Bool} {x y : ℚ}
    (h : ¬ (0 ≤ f.efficientIndexQ x y ∧ (f.efficientIndexQ x y).den = 1)) :
    startScan f cc x y = cc := by
  rw [startScan, if_neg h]

/-- The seed index (if any) a single enemy contributes, as the source
computes it: `efficientIndex` on the raw position; only a nonnegative
integer value seeds the scan. -/
def seedOf (f : XonixField) (e : Entity) : Option ℕ :=
  if 0 ≤ f.efficientIndexQ e.position.x e.position.y ∧
      (f.efficientIndexQ e.position.x e.position.y).den = 1
  then some (f.efficientIndexQ e.position.x e.position.y).num.toNat else none

/-- The effective seed list `claim` uses. -/
def seedsOf (f : XonixField) (es : List Entity) : List ℕ := es.filterMap (seedOf f)

theorem scanFold_char (f : XonixField) (es : List Entity) :
    ∀ (seeds0 : List ℕ) (cc : ℕ → Bool),
      (∀ i, i < f.len → (cc i = false ↔ f.ReachableFromSeeds seeds0 i)) →
      ∀ i, i < f.len →
        ((es.foldl (fun cc e => startScan f cc e.position.x e.position.y) cc) i = false ↔
          f.ReachableFromSeeds (seeds0 ++ seedsOf f es) i) := by
  induction es with
  | nil =>
    intro seeds0 cc hinv i hi
    simpa [seedsOf] using hinv i hi
  | cons e rest ih =>
    intro seeds0 cc hinv i hi
    rw [List.foldl_cons]
    by_cases hseed : 0 ≤ f.efficientIndexQ e.position.x e.position.y ∧
        (f.efficientIndexQ e.position.x e.position.y).den = 1
    · have hsf : seedsOf f (e :: rest) =
          (f.efficientIndexQ e.position.x e.position.y).num.toNat :: seedsOf f rest := by
        simp [seedsOf, seedOf, hseed]
      have hone := spanLoop_seed_char f seeds0 cc
        (f.efficientIndexQ e.position.x e.position.y).num.toNat hinv
      have hrec := ih (seeds0 ++ [(f.efficientIndexQ e.position.x e.position.y).num.toNat])
        (spanLoop f cc [(f.efficientIndexQ e.position.x e.position.y).num.toNat]) hone i hi
      rw [startScan_eq_spanLoop hseed, hrec, hsf, List.append_assoc]
      rfl
    · have hsf : seedsOf f (e :: rest) = seedsOf f rest := by
        simp [seedsOf, seedOf, hseed]
      have hrec := ih seeds0 cc hinv i hi
      rw [startScan_eq_self hseed, hrec, hsf]

theorem claimMask_false_iff (f : XonixField) (enemies : List Entity) (i : ℕ)
    (hi : i < f.sealTrail.len) :
    (f.claimMask enemies i = false ↔
      f.sealTrail.ReachableFromSeeds (seedsOf f.sealTrail enemies) i) := by
  have h0 : ∀ j, j < f.sealTrail.len →
      ((fun (_ : ℕ) => true) j = false ↔ f.sealTrail.ReachableFromSeeds [] j) := by
    intro j hj
    simp [ReachableFromSeeds]
  have hmain := scanFold_char f.sealTrail enemies [] (fun _ => true) h0 i hi
  simpa [claimMask] using hmain

theorem efficientIndexQ_int (f : XonixField) (x y : ℚ)
    (hx : x = (⌊x⌋ : ℚ)) (hy : y = (⌊y⌋ : ℚ)) :
    f.efficientIndexQ x y = ((⌊y⌋ * f.width + ⌊x⌋ : ℤ) : ℚ) := by
  rw [efficientIndexQ, hx, hy]
  push_cast [Int.floor_intCast]
  ring

/-- The rounded enemy positions as flat row-major indices — the seed
notion the claims use. -/
def enemySeeds (f : XonixField) (es : List Entity) : List ℕ :=
  es.map (fun e => (⌊e.position.y⌋ * f.width + ⌊e.position.x⌋).toNat)

theorem seedOf_int (f : XonixField) (e : Entity)
    (hx : e.position.x = (⌊e.position.x⌋ : ℚ)) (hy : e.position.y = (⌊e.position.y⌋ : ℚ))
    (hx0 : 0 ≤ ⌊e.position.x⌋) (hy0 : 0 ≤ ⌊e.position.y⌋) :
    seedOf f e = some (⌊e.position.y⌋ * f.width + ⌊e.position.x⌋).toNat := by
  have hidx := efficientIndexQ_int f e.position.x e.position.y hx hy
  rw [seedOf, if_pos]
  · rw [hidx]
    rw [Rat.num_intCast]
  · constructor
    · rw [hidx]
      exact_mod_cast by positivity
    · rw [hidx]
      exact Rat.den_intCast _

theorem seedsOf_eq_enemySeeds (f : XonixField) (es : List Entity)
    (hE : ∀ e ∈ es, e.position.x = (⌊e.position.x⌋ : ℚ) ∧
      e.position.y = (⌊e.position.y⌋ : ℚ) ∧
      0 ≤ ⌊e.position.x⌋ ∧ 0 ≤ ⌊e.position.y⌋) :
    seedsOf f es = enemySeeds f es := by
  induction es with
  | nil => rfl
  | cons e rest ih =>
    have he := hE e (by simp)
    rw [seedsOf, enemySeeds, List.filterMap_cons, List.map_cons,
      seedOf_int f e he.1 he.2.1 he.2.2.1 he.2.2.2]
    have hrest := ih (fun x hx => hE x (List.mem_cons_of_mem e hx))
    rw [seedsOf, enemySeeds] at hrest
    rw [hrest]

/-- C1 (amended): after `claim(enemies)` on a field all of whose enemies
sit at integral in-bounds positions, (1) every `Claiming` cell is
converted to `Claimed` first (`sealTrail`), and over the resulting sealed
grid (2) every cell 4-connected-reachable from some enemy's (rounded =
exact) position without crossing a `Claimed` cell keeps its sealed state
and is not `Claimed`, while (3) every other cell ends `Claimed`.  The
integrality/in-bounds restriction is forced: a fractional-position enemy
seeds nothing, so its own cell gets claimed
(`claim_unreachable_cell_claimed`), and an integral out-of-bounds position
aliases through `y*width+x` onto an unrelated in-range cell. -/
theorem claim_spec (f : XonixField) (enemies : List Entity)
    (hE : ∀ e ∈ enemies,
      e.position.x = (⌊e.position.x⌋ : ℚ) ∧ e.position.y = (⌊e.position.y⌋ : ℚ) ∧
      0 ≤ ⌊e.position.x⌋ ∧ ⌊e.position.x⌋ < f.width ∧
      0 ≤ ⌊e.position.y⌋ ∧ ⌊e.position.y⌋ < f.height)
    (p : ℕ) (hp : p < f.len) :
    (f.sealTrail.cells p = if f.cells p = CLAIMING then CLAIMED else f.cells p) ∧
    (f.sealTrail.ReachableFromSeeds (enemySeeds f enemies) p →
      (f.claim enemies).cells p = f.sealTrail.cells p ∧
      (f.claim enemies).cells p ≠ CLAIMED) ∧
    (¬ f.sealTrail.ReachableFromSeeds (enemySeeds f enemies) p →
      (f.claim enemies).cells p = CLAIMED) := by
  have hseal := sealTrail_cells f p hp
  have hplen : p < f.sealTrail.len := by rw [sealTrail_len]; exact hp
  have hbridge : seedsOf f.sealTrail enemies = enemySeeds f.sealTrail enemies :=
    seedsOf_eq_enemySeeds _ _ (fun e he =>
      ⟨(hE e he).1, (hE e he).2.1, (hE e he).2.2.1, (hE e he).2.2.2.2.1⟩)
  have hwidths : enemySeeds f.sealTrail enemies = enemySeeds f enemies := by
    rw [enemySeeds, enemySeeds, sealTrail_width]
  have hmask := claimMask_false_iff f enemies p hplen
  rw [hbridge, hwidths] at hmask
  refine ⟨hseal, ?_, ?_⟩
  · intro hreach
    have hfalse : f.claimMask enemies p = false := hmask.mpr hreach
    have hopen := reachableFromSeeds_open hreach
    rw [claim_cells f enemies p hp, if_neg (by rw [hfalse]; simp)]
    exact ⟨rfl, hopen.2⟩
  · intro hnreach
    have htrue : f.claimMask enemies p = true := by
      cases h : f.claimMask enemies p with
      | false => exact absurd (hmask.mp h) hnreach
      | true => rfl
    rw [claim_cells f enemies p hp, if_pos htrue]

/-- 3×1 field whose middle cell is `CLAIMED`, splitting the row. -/
def fldC1 : XonixField where
  width := 3
  height := 1
  cells := fun j => if j = 1 then CLAIMED else UNCLAIMED
  cellCount := fun s =>
    if s = CLAIMED then 1 else if s = UNCLAIMED then 2 else 0

/-- Enemy at cell `(0, 0)` of `fldC1`. -/
def enemyC1 : Entity where
  id := 3
  kind := EntityKind.enemy
  position := ⟨0, 0⟩
  direction := ⟨1, 1⟩
  speed := 1
  lives := 0
  claiming := false

/-- Witness for C1 at a concrete input: the hypotheses hold for `fldC1`
with the single enemy `enemyC1`, and the conclusion follows at cell 0. -/
theorem claim_spec_witness :
    ((∀ e ∈ [enemyC1],
      e.position.x = (⌊e.position.x⌋ : ℚ) ∧ e.position.y = (⌊e.position.y⌋ : ℚ) ∧
      0 ≤ ⌊e.position.x⌋ ∧ ⌊e.position.x⌋ < fldC1.width ∧
      0 ≤ ⌊e.position.y⌋ ∧ ⌊e.position.y⌋ < fldC1.height) ∧ 0 < fldC1.len) ∧
    ((fldC1.sealTrail.cells 0 =
        if fldC1.cells 0 = CLAIMING then CLAIMED else fldC1.cells 0) ∧
     (fldC1.sealTrail.ReachableFromSeeds (enemySeeds fldC1 [enemyC1]) 0 →
       (fldC1.claim [enemyC1]).cells 0 = fldC1.sealTrail.cells 0 ∧
       (fldC1.claim [enemyC1]).cells 0 ≠ CLAIMED) ∧
     (¬ fldC1.sealTrail.ReachableFromSeeds (enemySeeds fldC1 [enemyC1]) 0 →
       (fldC1.claim [enemyC1]).cells 0 = CLAIMED)) :=
  ⟨⟨by decide, by decide⟩, claim_spec fldC1 [enemyC1] (by decide) 0 (by decide)⟩

/-- Modelled from the claim's wording: a scan-line flood fill seeded at the
enemy's *rounded* (floored) position — for comparison with the source's
`startScan`, which seeds at the raw position. -/
def specStartScanRounded (f : XonixField) (cc : ℕ → Bool) (x y : ℚ) : ℕ → Bool :=
  let start : ℤ := ⌊y⌋ * f.width + ⌊x⌋
  if 0 ≤ start then spanLoop f cc [start.toNat] else cc

/-- Modelled from the claim's wording: `claim` with rounded-position
seeding, otherwise identical to the source's `claim`. -/
def specClaimRounded (f : XonixField) (enemies : List Entity) : XonixField :=
  let f1 := f.sealTrail
  let cc := enemies.foldl
    (fun cc e => specStartScanRounded f1 cc e.position.x e.position.y) (fun _ => true)
  claimMarkedLoop f1 cc (List.range f1.len)

/-- The rational `1/2`, written through the constructor so that kernel
reduction can evaluate it. -/
def halfQ : ℚ := ⟨1, 2, by decide, by decide⟩

/-- 2×1 field, all `UNCLAIMED`. -/
def fldC3 : XonixField := mkField 2 1

/-- Enemy at the fractional position `(1/2, 0)`; its rounded position is
cell `(0, 0)`. -/
def enemyC3 : Entity where
  id := 7
  kind := EntityKind.enemy
  position := ⟨halfQ, 0⟩
  direction := ⟨1, 1⟩
  speed := 1
  lives := 0
  claiming := false

theorem halfQ_not_int : ¬ (0 ≤ fldC3.sealTrail.efficientIndexQ halfQ 0 ∧
    (fldC3.sealTrail.efficientIndexQ halfQ 0).den = 1) := by
  have hidx : fldC3.sealTrail.efficientIndexQ halfQ 0 = halfQ := by
    rw [efficientIndexQ]
    norm_num
  rw [hidx]
  intro hcon
  exact absurd hcon.2 (by decide)

/-- C3 counterexample: the enemy sits at `(1/2, 0)`, rounded position
`(0, 0)`, on an all-`UNCLAIMED` 2×1 field.  Seeding at the rounded position
(the claim's algorithm, `specClaimRounded`) leaves cell `(0, 0)`
`UNCLAIMED`; the source seeds at the raw position, whose fractional index
stops the scan immediately, so the code claims the whole field — cell
`(0, 0)` ends `CLAIMED`.  The claim's rounded-seeding assertion is false of
the code. -/
theorem claim_seeds_raw_not_rounded :
    (fldC3.claim [enemyC3]).cells 0 = CLAIMED ∧
    (specClaimRounded fldC3 [enemyC3]).cells 0 = UNCLAIMED ∧
    fldC3.cells 0 = UNCLAIMED ∧
    ⌊enemyC3.position.x⌋ = 0 ∧ ⌊enemyC3.position.y⌋ = 0 := by
  have hlen : fldC3.sealTrail.len = 2 := by decide
  have hseal_cells : ∀ j, fldC3.sealTrail.cells j = UNCLAIMED := by
    intro j
    by_cases hj : j < fldC3.len
    · rw [sealTrail_cells fldC3 j hj]
      rfl
    · rw [sealTrail_cells_out fldC3 j hj]
      rfl
  refine ⟨?_, ?_, by decide, by decide, by decide⟩
  · -- the code's claim: the fractional seed is a no-op, the mask stays
    -- all-true, phase 3 claims everything
    have hmask : fldC3.claimMask [enemyC3] 0 = true := by
      rw [claimMask, List.foldl_cons, List.foldl_nil]
      rw [show enemyC3.position.x = halfQ from rfl,
        show enemyC3.position.y = (0 : ℚ) from rfl]
      rw [startScan_eq_self halfQ_not_int]
    rw [claim_cells fldC3 [enemyC3] 0 (by decide), if_pos hmask]
  · -- the claim's rounded seeding marks cell 0, which then stays unclaimed
    have hseed : (⌊(0 : ℚ)⌋ * fldC3.sealTrail.width + ⌊halfQ⌋ : ℤ) = 0 := by decide
    have hmask :
        (specStartScanRounded fldC3.sealTrail (fun _ => true) halfQ 0) 0 = false := by
      rw [specStartScanRounded]
      rw [if_pos (by rw [hseed])]
      rw [show ((⌊(0 : ℚ)⌋ * fldC3.sealTrail.width + ⌊halfQ⌋ : ℤ)).toNat = 0 from by decide]
      have hinv0 : ∀ j, j < fldC3.sealTrail.len →
          ((fun (_ : ℕ) => true) j = false ↔
            fldC3.sealTrail.ReachableFromSeeds [] j) := by
        intro j hj
        simp [ReachableFromSeeds]
      have hchar := spanLoop_seed_char fldC3.sealTrail [] (fun _ => true) 0 hinv0 0
        (by omega)
      rw [hchar]
      exact ⟨0, by simp, ⟨by omega, by rw [hseal_cells 0]; decide⟩,
        Relation.ReflTransGen.refl⟩
    show (claimMarkedLoop fldC3.sealTrail _ (List.range fldC3.sealTrail.len)).cells 0
      = UNCLAIMED
    rw [claimMarkedLoop_cells]
    rw [List.foldl_cons, List.foldl_nil]
    rw [show enemyC3.position.x = halfQ from rfl,
      show enemyC3.position.y = (0 : ℚ) from rfl]
    rw [if_neg (by rw [hmask]; simp)]
    rw [hseal_cells 0]

/-- C1 counterexample: the frozen claim quantifies over *any* field and
enemies.  With the enemy at the fractional position `(1/2, 0)` on the
all-`UNCLAIMED` 2×1 field, cell `(0, 0)` is `Unclaimed` and 4-connected-
reachable from that enemy's position (it is the enemy's own cell) without
crossing any `Claimed` cell — yet after `claim` it ends `CLAIMED`,
because the raw fractional seed index stops the scan immediately and no
cell is exempted from claiming. -/
theorem claim_unreachable_cell_claimed :
    fldC3.cells 0 = UNCLAIMED ∧
    fldC3.sealTrail.ReachableFromSeeds (enemySeeds fldC3 [enemyC3]) 0 ∧
    (fldC3.claim [enemyC3]).cells 0 = CLAIMED := by
  refine ⟨by decide, ?_, ?_⟩
  · exact ⟨0, by decide, ⟨by decide, by decide⟩, Relation.ReflTransGen.refl⟩
  · have hmask : fldC3.claimMask [enemyC3] 0 = true := by
      rw [claimMask, List.foldl_cons, List.foldl_nil]
      rw [show enemyC3.position.x = halfQ from rfl,
        show enemyC3.position.y = (0 : ℚ) from rfl]
      rw [startScan_eq_self halfQ_not_int]
    rw [claim_cells fldC3 [enemyC3] 0 (by decide), if_pos hmask]

/-- C3 (amended): the fill is seeded at the raw flat index
`position.y * width + position.x`.  For an enemy whose coordinates are
nonnegative integers this is exactly the rounded position; an enemy whose
seed cell is `Claimed` seeds nothing (the scan stops on the seed); and an
enemy whose raw index is fractional seeds nothing at all (the `undefined`
array lookup stops the scan). -/
theorem startScan_seeding (f : XonixField) (cc : ℕ → Bool) (e : Entity) :
    (e.position.x = (⌊e.position.x⌋ : ℚ) ∧ e.position.y = (⌊e.position.y⌋ : ℚ) ∧
        0 ≤ ⌊e.position.x⌋ ∧ 0 ≤ ⌊e.position.y⌋ →
      startScan f cc e.position.x e.position.y =
        spanLoop f cc [(⌊e.position.y⌋ * f.width + ⌊e.position.x⌋).toNat]) ∧
    (e.position.x = (⌊e.position.x⌋ : ℚ) ∧ e.position.y = (⌊e.position.y⌋ : ℚ) ∧
        0 ≤ ⌊e.position.x⌋ ∧ 0 ≤ ⌊e.position.y⌋ ∧
        f.cells (⌊e.position.y⌋ * f.width + ⌊e.position.x⌋).toNat = CLAIMED →
      startScan f cc e.position.x e.position.y = cc) ∧
    ((f.efficientIndexQ e.position.x e.position.y).den ≠ 1 →
      startScan f cc e.position.x e.position.y = cc) := by
  have hmain : ∀ (hx : e.position.x = (⌊e.position.x⌋ : ℚ))
      (hy : e.position.y = (⌊e.position.y⌋ : ℚ)),
      0 ≤ ⌊e.position.x⌋ → 0 ≤ ⌊e.position.y⌋ →
      startScan f cc e.position.x e.position.y =
        spanLoop f cc [(⌊e.position.y⌋ * f.width + ⌊e.position.x⌋).toNat] := by
    intro hx hy hx0 hy0
    have hidx := efficientIndexQ_int f e.position.x e.position.y hx hy
    rw [startScan_eq_spanLoop ⟨by rw [hidx]; exact_mod_cast by positivity,
      by rw [hidx]; exact Rat.den_intCast _⟩]
    rw [hidx, Rat.num_intCast]
  refine ⟨fun h => hmain h.1 h.2.1 h.2.2.1 h.2.2.2, ?_, ?_⟩
  · intro h
    rw [hmain h.1 h.2.1 h.2.2.1 h.2.2.2.1]
    have hstop : stopN f cc (⌊e.position.y⌋ * f.width + ⌊e.position.x⌋).toNat = true := by
      rw [stopN, h.2.2.2.2]
      simp
    rw [spanLoop_cons_stop hstop, spanLoop_nil]
  · intro hden
    exact startScan_eq_self (fun hcon => hden hcon.2)

/-- 1×1 field whose single cell is `CLAIMED`. -/
def fldClaimedW : XonixField where
  width := 1
  height := 1
  cells := fun _ => CLAIMED
  cellCount := fun s => if s = CLAIMED then 1 else 0

/-- Enemy at `(0, 0)`, standing on the `CLAIMED` cell of `fldClaimedW`. -/
def eSeedW : Entity where
  id := 9
  kind := EntityKind.enemy
  position := ⟨0, 0⟩
  direction := ⟨1, 1⟩
  speed := 1
  lives := 0
  claiming := false

/-- Witness for the amended C3: an enemy standing on a `Claimed` cell
seeds nothing — the mask is unchanged. -/
theorem startScan_seeding_witness :
    (eSeedW.position.x = (⌊eSeedW.position.x⌋ : ℚ) ∧
      eSeedW.position.y = (⌊eSeedW.position.y⌋ : ℚ) ∧
      0 ≤ ⌊eSeedW.position.x⌋ ∧ 0 ≤ ⌊eSeedW.position.y⌋ ∧
      fldClaimedW.cells
        (⌊eSeedW.position.y⌋ * fldClaimedW.width + ⌊eSeedW.position.x⌋).toNat = CLAIMED) ∧
    startScan fldClaimedW (fun _ => true) eSeedW.position.x eSeedW.position.y =
      (fun _ => true) :=
  ⟨by decide,
    (startScan_seeding fldClaimedW (fun _ => true) eSeedW).2.1 (by decide)⟩

/-- The span-fill stack loop again, as a step-counted (fuel) recursion:
`some` when the `while` loop exits within `fuel` iterations. -/
def spanLoopFuel (f : XonixField) : ℕ → (ℕ → Bool) → List ℕ → Option (ℕ → Bool)
  | 0, _, _ => none
  | n + 1, cc, stack =>
    match stack with
    | [] => some cc
    | cellIndex :: rest =>
      if stopN f cc cellIndex then spanLoopFuel f n cc rest
      else
        spanLoopFuel f n
          (scanRight f (scanLeft f cc (cellIndex / f.width * f.width) cellIndex).1
            (f.width - 1 + cellIndex / f.width * f.width) (cellIndex + 1)).1
          ((pushes f
              (scanRight f (scanLeft f cc (cellIndex / f.width * f.width) cellIndex).1
                (f.width - 1 + cellIndex / f.width * f.width) (cellIndex + 1)).1
              ((scanLeft f cc (cellIndex / f.width * f.width) cellIndex).2 + 1).toNat
              (scanRight f (scanLeft f cc (cellIndex / f.width * f.width) cellIndex).1
                (f.width - 1 + cellIndex / f.width * f.width) (cellIndex + 1)).2).reverse
            ++ rest)

/-- C10: the span-fill `while` loop of `startScan` terminates from every
mask and stack — after finitely many iterations the stack empties and the
loop produces exactly the value the (well-founded) `spanLoop` denotes. -/
theorem spanLoop_terminates (f : XonixField) (cc : ℕ → Bool) (stack : List ℕ) :
    ∃ fuel, spanLoopFuel f fuel cc stack = some (spanLoop f cc stack) := by
  induction cc, stack using spanLoop.induct f with
  | case1 cc =>
    exact ⟨1, by rw [spanLoop_nil]; rfl⟩
  | case2 cc c rest hstop ih =>
    obtain ⟨n, hn⟩ := ih
    refine ⟨n + 1, ?_⟩
    rw [spanLoop_cons_stop hstop]
    show (if stopN f cc c = true then spanLoopFuel f n cc rest else _) = _
    rw [if_pos hstop, hn]
  | case3 cc c rest hstop y rowStart rowEnd left right cc2 ps ih =>
    obtain ⟨n, hn⟩ := ih
    refine ⟨n + 1, ?_⟩
    have hstopF : stopN f cc c = false := by simpa using hstop
    rw [spanLoop_cons_go hstopF]
    show (if stopN f cc c = true then spanLoopFuel f n cc rest else _) = _
    rw [if_neg (by rw [hstopF]; simp)]
    exact hn

end XonixField

/-! ## C8 — occupancy-count invariants over reachable field states -/

namespace XonixField

/-- The occupancy counters agree with the actual grid contents. -/
def countsMatch (f : XonixField) : Prop :=
  ∀ s, f.cellCount s =
    (((Finset.range f.len).filter (fun i => f.cells i = s)).card : ℤ)

/-- `OUT_OF_BOUNDS` is never stored in the grid. -/
def noStoredOOB (f : XonixField) : Prop :=
  ∀ i, i < f.len → f.cells i ≠ OUT_OF_BOUNDS

theorem card_filter_setCellDirect (f : XonixField) (v : CellState) (i : ℕ)
    (hi : i < f.len) (s : CellState) :
    ((((Finset.range f.len).filter (fun j => (f.setCellDirect v i).cells j = s)).card : ℤ)) =
      (((Finset.range f.len).filter (fun j => f.cells j = s)).card : ℤ)
        - (if s = f.cells i then 1 else 0) + (if s = v then 1 else 0) := by
  have hmem : i ∈ Finset.range f.len := Finset.mem_range.mpr hi
  have key : ∀ g : ℕ → CellState,
      (((Finset.range f.len).filter (fun j => g j = s)).card : ℤ) =
      ((((Finset.range f.len).erase i).filter (fun j => g j = s)).card : ℤ)
        + (if s = g i then 1 else 0) := by
    intro g
    rw [Finset.filter_erase]
    by_cases hgi : s = g i
    · have hmemA : i ∈ (Finset.range f.len).filter (fun j => g j = s) :=
        Finset.mem_filter.mpr ⟨hmem, hgi.symm⟩
      have hpos : 0 < ((Finset.range f.len).filter (fun j => g j = s)).card :=
        Finset.card_pos.mpr ⟨i, hmemA⟩
      rw [if_pos hgi, Finset.card_erase_of_mem hmemA]
      omega
    · have hmemA : i ∉ (Finset.range f.len).filter (fun j => g j = s) := by
        simp only [Finset.mem_filter, not_and]
        intro _ hji
        exact hgi hji.symm
      rw [if_neg hgi, Finset.erase_eq_of_not_mem hmemA]
      omega
  have hcongr :
      ((Finset.range f.len).erase i).filter (fun j => (f.setCellDirect v i).cells j = s) =
      ((Finset.range f.len).erase i).filter (fun j => f.cells j = s) := by
    apply Finset.filter_congr
    intro j hj
    have hji : j ≠ i := Finset.ne_of_mem_erase hj
    simp [setCellDirect_cells, hji]
  have hvi : (f.setCellDirect v i).cells i = v := by simp [setCellDirect_cells]
  rw [key (f.setCellDirect v i).cells, key f.cells, hcongr, hvi]
  by_cases hv : s = v <;> by_cases hc : s = f.cells i <;> simp [hv, hc]

theorem countsMatch_setCellDirect {f : XonixField} (h : f.countsMatch)
    (v : CellState) {i : ℕ} (hi : i < f.len) :
    (f.setCellDirect v i).countsMatch := by
  intro s
  have hlen : (f.setCellDirect v i).len = f.len := rfl
  show f.cellCount s - _ + _ = _
  rw [hlen, card_filter_setCellDirect f v i hi s, h s]

theorem noStoredOOB_setCellDirect {f : XonixField} (h : f.noStoredOOB)
    {v : CellState} (hv : v ≠ OUT_OF_BOUNDS) (i : ℕ) :
    (f.setCellDirect v i).noStoredOOB := by
  intro j hj
  rw [setCellDirect_cells]
  by_cases hji : j = i
  · simpa [hji] using hv
  · simpa [hji] using h j hj

/-- The two invariants bundled. -/
def WFCounts (f : XonixField) : Prop := f.countsMatch ∧ f.noStoredOOB

theorem wfCounts_setCellDirect {f : XonixField} (h : f.WFCounts)
    {v : CellState} (hv : v ≠ OUT_OF_BOUNDS) {i : ℕ} (hi : i < f.len) :
    (f.setCellDirect v i).WFCounts :=
  ⟨countsMatch_setCellDirect h.1 v hi, noStoredOOB_setCellDirect h.2 hv i⟩

theorem wfCounts_sealLoop {f : XonixField} (h : f.WFCounts) {l : List ℕ}
    (hl : ∀ i ∈ l, i < f.len) : (f.sealLoop l).WFCounts := by
  induction l generalizing f with
  | nil => exact h
  | cons i rest ih =>
    rw [sealLoop]
    by_cases hc : f.cells i = CLAIMING
    · rw [if_pos hc]
      exact ih (wfCounts_setCellDirect h (by simp) (hl i (by simp)))
        (fun j hj => hl j (by simp [hj]))
    · rw [if_neg hc]
      exact ih h (fun j hj => hl j (by simp [hj]))

theorem wfCounts_clearClaimingLoop {f : XonixField} (h : f.WFCounts) {l : List ℕ}
    (hl : ∀ i ∈ l, i < f.len) : (f.clearClaimingLoop l).WFCounts := by
  induction l generalizing f with
  | nil => exact h
  | cons i rest ih =>
    rw [clearClaimingLoop]
    by_cases hc : f.cells i = CLAIMING
    · rw [if_pos hc]
      exact ih (wfCounts_setCellDirect h (by simp) (hl i (by simp)))
        (fun j hj => hl j (by simp [hj]))
    · rw [if_neg hc]
      exact ih h (fun j hj => hl j (by simp [hj]))

theorem wfCounts_claimMarkedLoop {f : XonixField} (h : f.WFCounts)
    (cc : ℕ → Bool) {l : List ℕ}
    (hl : ∀ i ∈ l, i < f.len) : (f.claimMarkedLoop cc l).WFCounts := by
  induction l generalizing f with
  | nil => exact h
  | cons i rest ih =>
    rw [claimMarkedLoop]
    by_cases hc : cc i = true
    · rw [if_pos hc]
      exact ih (wfCounts_setCellDirect h (by simp) (hl i (by simp)))
        (fun j hj => hl j (by simp [hj]))
    · rw [if_neg (by simp [hc])]
      exact ih h (fun j hj => hl j (by simp [hj]))

theorem wfCounts_mkField (w h : ℕ) : (mkField w h).WFCounts := by
  constructor
  · intro s
    show (if s = UNCLAIMED then (w * h : ℤ) else 0) = _
    by_cases hs : s = UNCLAIMED
    · rw [if_pos hs]
      have : (Finset.range (mkField w h).len).filter
          (fun i => (mkField w h).cells i = s) = Finset.range (mkField w h).len := by
        apply Finset.filter_true_of_mem
        intro i _
        simpa [mkField] using hs.symm
      rw [this]
      simp [len, mkField]
    · rw [if_neg hs]
      have : (Finset.range (mkField w h).len).filter
          (fun i => (mkField w h).cells i = s) = ∅ := by
        apply Finset.filter_false_of_mem
        intro i _
        simpa [mkField] using fun hh => hs hh.symm
      rw [this]
      simp
  · intro i _
    simp [mkField]

theorem wfCounts_claim {f : XonixField} (h : f.WFCounts) (es : List Entity) :
    (f.claim es).WFCounts := by
  rw [claim]
  have h1 : f.sealTrail.WFCounts := by
    rw [sealTrail]
    exact wfCounts_sealLoop h (fun i hi => List.mem_range.mp hi)
  exact wfCounts_claimMarkedLoop h1 _ (fun i hi => List.mem_range.mp hi)

theorem wfCounts_clearClaiming {f : XonixField} (h : f.WFCounts) :
    f.clearClaiming.WFCounts := by
  rw [clearClaiming]
  exact wfCounts_clearClaimingLoop h (fun i hi => List.mem_range.mp hi)

end XonixField

/-- Reachable field states: any sequence of (in-bounds, storable-state)
`set` operations, `claim(enemies)` and `clearClaiming()` calls after
construction.  (Every `setCellByXY` call site in the source passes
`CLAIMED`, `UNCLAIMED` or `CLAIMING`, within bounds.) -/
inductive ReachableField : XonixField → Prop where
  | init (w h : ℕ) : ReachableField (XonixField.mkField w h)
  | set (f : XonixField) (v : CellState) (x y : ℕ) (hv : v ≠ CellState.OUT_OF_BOUNDS)
      (hx : x < f.width) (hy : y < f.height) (hf : ReachableField f) :
      ReachableField (f.setCellByXY v x y)
  | claimStep (f : XonixField) (es : List Entity) (hf : ReachableField f) :
      ReachableField (f.claim es)
  | clearStep (f : XonixField) (hf : ReachableField f) :
      ReachableField f.clearClaiming

theorem reachableField_wfCounts {f : XonixField} (h : ReachableField f) :
    f.WFCounts := by
  induction h with
  | init w h => exact XonixField.wfCounts_mkField w h
  | set f v x y hv hx hy hf ih =>
    refine XonixField.wfCounts_setCellDirect ih hv ?_
    show y * f.width + x < f.width * f.height
    calc y * f.width + x < y * f.width + f.width := by omega
    _ = (y + 1) * f.width := by ring
    _ ≤ f.height * f.width := Nat.mul_le_mul_right _ (by omega)
    _ = f.width * f.height := Nat.mul_comm _ _
  | claimStep f es hf ih => exact XonixField.wfCounts_claim ih es
  | clearStep f hf ih => exact XonixField.wfCounts_clearClaiming ih

/-- C8 (amended): for every reachable field state the occupancy counters
match the actual grid contents and
`count(CLAIMED) + count(UNCLAIMED) + count(CLAIMING) = width*height`; and
whenever the field has at least one cell, `claimedRatio()` is a number in
`[0, 1]`.  (The 0×0 field — reachable, `XonixLevel.empty()` builds one —
has ratio `0/0 = NaN`, which is not in `[0, 1]`; hence the positivity
guard.) -/
theorem reachableField_invariant (f : XonixField) (h : ReachableField f) :
    f.countsMatch ∧
    f.cellCount CLAIMED + f.cellCount UNCLAIMED + f.cellCount CLAIMING = (f.len : ℤ) ∧
    (0 < f.len → ∃ r, f.claimedRatio = some r ∧ 0 ≤ r ∧ r ≤ 1) := by
  obtain ⟨hcm, hoob⟩ := reachableField_wfCounts h
  have hsum : f.cellCount CLAIMED + f.cellCount UNCLAIMED + f.cellCount CLAIMING
      = (f.len : ℤ) := by
    have hsplitU := @Finset.filter_card_add_filter_neg_card_eq_card _
      (Finset.range f.len) (fun i => f.cells i = UNCLAIMED) _ _
    have hrest :
        ((Finset.range f.len).filter (fun i => ¬ f.cells i = UNCLAIMED)).card =
        ((Finset.range f.len).filter (fun i => f.cells i = CLAIMED)).card +
        ((Finset.range f.len).filter (fun i => f.cells i = CLAIMING)).card := by
      have hsplitC := @Finset.filter_card_add_filter_neg_card_eq_card _
        ((Finset.range f.len).filter (fun i => ¬ f.cells i = UNCLAIMED))
        (fun i => f.cells i = CLAIMED) _ _
      have e1 : ((Finset.range f.len).filter (fun i => ¬ f.cells i = UNCLAIMED)).filter
          (fun i => f.cells i = CLAIMED) =
          (Finset.range f.len).filter (fun i => f.cells i = CLAIMED) := by
        rw [Finset.filter_filter]
        apply Finset.filter_congr
        intro j _
        constructor
        · intro hj; exact hj.2
        · intro hj; exact ⟨by simp [hj], hj⟩
      have e2 : ((Finset.range f.len).filter (fun i => ¬ f.cells i = UNCLAIMED)).filter
          (fun i => ¬ f.cells i = CLAIMED) =
          (Finset.range f.len).filter (fun i => f.cells i = CLAIMING) := by
        rw [Finset.filter_filter]
        apply Finset.filter_congr
        intro j hj
        have hjoob := hoob j (Finset.mem_range.mp hj)
        constructor
        · intro hj2
          cases hc : f.cells j <;> simp_all
        · intro hj2
          simp [hj2]
      rw [e1, e2] at hsplitC
      omega
    rw [hcm CLAIMED, hcm UNCLAIMED, hcm CLAIMING]
    have hcard := Finset.card_range f.len
    omega
  refine ⟨hcm, hsum, ?_⟩
  intro hlen
  have hc0 : (0 : ℤ) ≤ f.cellCount CLAIMED := by
    rw [hcm CLAIMED]; positivity
  have hcle : f.cellCount CLAIMED ≤ (f.len : ℤ) := by
    rw [hcm CLAIMED]
    have hfle := Finset.card_filter_le (Finset.range f.len)
      (fun i => f.cells i = CLAIMED)
    rw [Finset.card_range] at hfle
    exact_mod_cast hfle
  refine ⟨(f.cellCount CLAIMED : ℚ) / (f.len : ℚ), ?_, ?_, ?_⟩
  · rw [XonixField.claimedRatio, if_neg (by omega)]
  · apply div_nonneg
    · exact_mod_cast hc0
    · positivity
  · rw [div_le_one (by exact_mod_cast hlen)]
    exact_mod_cast hcle

/-- Witness for C8: the invariant applied to the freshly constructed 2×2
field. -/
theorem reachableField_invariant_witness :
    (XonixField.mkField 2 2).cellCount CLAIMED
      + (XonixField.mkField 2 2).cellCount UNCLAIMED
      + (XonixField.mkField 2 2).cellCount CLAIMING = 4 ∧
    (∃ r, (XonixField.mkField 2 2).claimedRatio = some r ∧ 0 ≤ r ∧ r ≤ 1) := by
  have h := reachableField_invariant (XonixField.mkField 2 2) (ReachableField.init 2 2)
  exact ⟨by rw [h.2.1]; decide, h.2.2 (by decide)⟩

/-- C8 counterexample: the 0×0 field is a reachable field state
(`XonixLevel.empty()` constructs one), and its `claimedRatio()` is the JS
value `0/0 = NaN` — not a number in `[0, 1]`. -/
theorem empty_field_ratio_not_a_number :
    ReachableField (XonixField.mkField 0 0) ∧
    (XonixField.mkField 0 0).claimedRatio = none :=
  ⟨ReachableField.init 0 0, rfl⟩

/-! ## Concrete fixtures for witnesses and counterexamples -/

/-- A 1×1 field whose only cell is `CLAIMING`. -/
def fldTrail : XonixField where
  width := 1
  height := 1
  cells := fun _ => CLAIMING
  cellCount := fun s => if s = CLAIMING then 1 else 0

/-- A player entity with 3 lives at the origin. -/
def playerA : Entity where
  id := 0
  kind := EntityKind.player
  position := ⟨0, 0⟩
  direction := ⟨0, 0⟩
  speed := 1
  lives := 3
  claiming := true

/-- Level fixture for the `die()` witness. -/
def lvlA : XonixLevel where
  field := fldTrail
  enemies := []
  player := playerA
  defaultPlayerPosition := ⟨5, 7⟩
  claimRatioWin := 4/5

/-- Level fixture with 0 lives, for the repeated-`die()` counterexample. -/
def lvlB : XonixLevel where
  field := XonixField.mkField 1 1
  enemies := []
  player := { playerA with lives := 0 }
  defaultPlayerPosition := ⟨0, 0⟩
  claimRatioWin := 4/5

/-! ## C2 / C9 — collision probing order -/

/-- The three candidate target cells, in the source's fixed probing order. -/
def candidates (currX currY nextX nextY : ℤ) : List (ℤ × ℤ) :=
  [(nextX, currY), (currX, nextY), (nextX, nextY)]

theorem checkCollisions_eq_find {T : Type} (provider : ℤ → ℤ → T)
    (predicate : T → Bool) (collisionFactory : T → Option CellState × Option Entity)
    (ccs : CellState) (cx cy nx ny : ℤ) :
    checkCollisions provider predicate collisionFactory ccs cx cy nx ny =
      match (candidates cx cy nx ny).find? (fun c => predicate (provider c.1 c.2)) with
      | some c => some { x := c.1, y := c.2, currentCellState := ccs
                         collidedCellState := (collisionFactory (provider c.1 c.2)).1
                         collidedEntity := (collisionFactory (provider c.1 c.2)).2 }
      | none => none := by
  unfold checkCollisions checkCollisionForPosition candidates
  by_cases h1 : predicate (provider nx cy) <;>
    by_cases h2 : predicate (provider cx ny) <;>
    by_cases h3 : predicate (provider nx ny) <;>
    simp [h1, h2, h3, List.find?]

/-- C2 (amended): `checkCollision` is provider-major — the cell-lookup
provider is probed at all three candidates first (first hit wins), and the
entity-lookup provider is probed at the three candidates only when the
cell pass found nothing. -/
theorem checkCollision_provider_major (self : Entity) (level : XonixLevel)
    (cx cy nx ny : ℤ) :
    self.checkCollision level cx cy nx ny =
      match (candidates cx cy nx ny).find?
          (fun c => Entity.cellPredicate (level.field.getCell cx cy)
            (level.field.getCell c.1 c.2)) with
      | some c => some { x := c.1, y := c.2
                         currentCellState := level.field.getCell cx cy
                         collidedCellState := some (level.field.getCell c.1 c.2)
                         collidedEntity := none }
      | none =>
        match (candidates cx cy nx ny).find?
            (fun c => Entity.entityPredicate self (Entity.entityProvider level c.1 c.2)) with
        | some c => some { x := c.1, y := c.2
                           currentCellState := level.field.getCell cx cy
                           collidedCellState := none
                           collidedEntity := Entity.entityProvider level c.1 c.2 }
        | none => none := by
  simp only [Entity.checkCollision]
  rw [checkCollisions_eq_find, checkCollisions_eq_find]
  cases (candidates cx cy nx ny).find?
      (fun c => Entity.cellPredicate (level.field.getCell cx cy)
        (level.field.getCell c.1 c.2)) with
  | none =>
    cases (candidates cx cy nx ny).find?
        (fun c => Entity.entityPredicate self (Entity.entityProvider level c.1 c.2)) with
    | none => rfl
    | some c => rfl
  | some c => rfl

/-- Modelled from the claim's wording (candidate-major order): for each
candidate in the fixed order, check the cell-lookup provider and then the
entity-lookup provider before moving to the next candidate; the first
candidate for which either provider reports a collision wins.  This is the
order C2 asserts; it is *not* what the source does. -/
def specCheckCollision (self : Entity) (level : XonixLevel)
    (currX currY nextX nextY : ℤ) : Option Collision :=
  let field := level.field
  let currCell := field.getCell currX currY
  let cellAt := fun (x y : ℤ) =>
    checkCollisionForPosition (fun x y => field.getCell x y)
      (Entity.cellPredicate currCell) (fun item => (some item, none)) currCell x y
  let entAt := fun (x y : ℤ) =>
    checkCollisionForPosition (Entity.entityProvider level)
      (Entity.entityPredicate self) (fun item => (none, item)) currCell x y
  ((cellAt nextX currY).orElse fun _ => entAt nextX currY).orElse fun _ =>
  (((cellAt currX nextY).orElse fun _ => entAt currX nextY).orElse fun _ =>
  ((cellAt nextX nextY).orElse fun _ => entAt nextX nextY))

/-- 2×2 field with one `CLAIMED` cell at `(0, 1)` (flat index 2). -/
def fldC2 : XonixField where
  width := 2
  height := 2
  cells := fun j => if j = 2 then CLAIMED else UNCLAIMED
  cellCount := fun s => if s = CLAIMED then 1 else if s = UNCLAIMED then 3 else 0

/-- Moving entity for the C2 counterexample, at cell `(0, 0)` heading
diagonally to `(1, 1)`. -/
def selfC2 : Entity where
  id := 0
  kind := EntityKind.player
  position := ⟨0, 0⟩
  direction := ⟨1, 1⟩
  speed := 1
  lives := 0
  claiming := false

/-- A second entity parked on candidate cell `(1, 0)`. -/
def otherC2 : Entity where
  id := 1
  kind := EntityKind.enemy
  position := ⟨1, 0⟩
  direction := ⟨1, 1⟩
  speed := 1
  lives := 0
  claiming := false

def lvlC2 : XonixLevel where
  field := fldC2
  enemies := [otherC2]
  player := selfC2
  defaultPlayerPosition := ⟨0, 0⟩
  claimRatioWin := 4/5

/-- C2 counterexample: with an entity on the first candidate `(1, 0)` and a
differing cell on the second candidate `(0, 1)`, candidate-major order (the
claim) reports the entity collision at `(1, 0)` while the source reports
the cell collision at `(0, 1)` — the two orders disagree. -/
theorem checkCollision_not_candidate_major :
    specCheckCollision selfC2 lvlC2 0 0 1 1 ≠ selfC2.checkCollision lvlC2 0 0 1 1 := by
  decide

/-- C9 (amended): an entity collision is reported at a candidate exactly
when the *first* entity in the level's list whose rounded position equals
the candidate exists and is not the moving entity itself.  (If the moving
entity precedes another co-located entity in the list, `find` returns the
mover and no collision is reported, although some other entity matches.) -/
theorem entity_collision_iff_first_match (self : Entity) (level : XonixLevel)
    (ccs : CellState) (x y : ℤ) :
    (checkCollisionForPosition (Entity.entityProvider level)
        (Entity.entityPredicate self) (fun item => (none, item)) ccs x y).isSome = true ↔
      ∃ e, Entity.entityProvider level x y = some e ∧ e.id ≠ self.id := by
  unfold checkCollisionForPosition
  cases he : Entity.entityProvider level x y with
  | none => simp [he, Entity.entityPredicate]
  | some e =>
    by_cases hid : e.id = self.id <;> simp [he, Entity.entityPredicate, hid]

/-- Moving entity for the C9 counterexample, first in the entity list,
rounded position `(0, 0)`. -/
def selfC9 : Entity where
  id := 0
  kind := EntityKind.player
  position := ⟨0, 0⟩
  direction := ⟨1, 0⟩
  speed := 1
  lives := 0
  claiming := false

/-- A second entity sharing rounded cell `(0, 0)` with the mover. -/
def otherC9 : Entity where
  id := 1
  kind := EntityKind.enemy
  position := ⟨0, 0⟩
  direction := ⟨1, 0⟩
  speed := 1
  lives := 0
  claiming := false

def lvlC9 : XonixLevel where
  field := XonixField.mkField 2 1
  enemies := [otherC9]
  player := selfC9
  defaultPlayerPosition := ⟨0, 0⟩
  claimRatioWin := 4/5

/-- C9 counterexample: another entity (id 1) has rounded position equal to
the candidate `(0, 0)`, yet no entity collision is reported there, because
`find` returns the moving entity itself (first in the list) and the
`item !== this` filter discards it. -/
theorem entity_collision_missed_when_self_first :
    (checkCollisionForPosition (Entity.entityProvider lvlC9)
        (Entity.entityPredicate selfC9) (fun item => (none, item)) UNCLAIMED 0 0) = none ∧
    ∃ e ∈ lvlC9.entities, e.id ≠ selfC9.id ∧
      e.position.xRounded = 0 ∧ e.position.yRounded = 0 := by
  decide

/-! ## C4 — `Level.die()` -/

/-- C4: every call to `Level.die()` decrements the player's lives by
exactly 1, sets the player's speed to 0, resets the player's position to
the configured default spawn, converts every `Claiming` cell of the field
to `Unclaimed`, fires exactly one `died` notification, and fires a `lost`
notification if and only if the resulting lives value is below zero. -/
theorem die_spec (lvl : XonixLevel) :
    (lvl.die.1.player.lives = lvl.player.lives - 1) ∧
    (lvl.die.1.player.speed = 0) ∧
    (lvl.die.1.player.position = lvl.defaultPlayerPosition) ∧
    (∀ i, i < lvl.field.len →
      lvl.die.1.field.cells i =
        if lvl.field.cells i = CLAIMING then UNCLAIMED else lvl.field.cells i) ∧
    (lvl.die.2.count Notif.died = 1) ∧
    (Notif.lost ∈ lvl.die.2 ↔ lvl.player.lives - 1 < 0) := by
  refine ⟨rfl, rfl, rfl, ?_, ?_, ?_⟩
  · intro i hi
    exact XonixField.clearClaiming_cells lvl.field i hi
  · show (Notif.died :: _).count Notif.died = 1
    by_cases h : lvl.player.lives - 1 < 0 <;> simp [XonixLevel.die, h]
  · show Notif.lost ∈ Notif.died :: _ ↔ _
    by_cases h : lvl.player.lives - 1 < 0 <;> simp [XonixLevel.die, h]

/-- Witness for C4 at a concrete level: lives drop from 3 to 2, and the
single `CLAIMING` cell is cleared back to `UNCLAIMED`. -/
theorem die_spec_witness :
    lvlA.die.1.player.lives = 2 ∧ lvlA.die.1.field.cells 0 = UNCLAIMED := by
  have h := die_spec lvlA
  refine ⟨?_, ?_⟩
  · rw [h.1]; decide
  · rw [h.2.2.2.1 0 (by decide)]; decide

/-! ## C6 — `Enemy.onCollision` -/

/-- C6: in `Enemy.onCollision`, the direction component on an axis is
negated exactly when the collision candidate coordinate differs from the
enemy's current rounded coordinate on that axis; `die()` is invoked iff
the collided cell state was `Claiming` or the collided entity is the
Player; and the enemy's position (and speed) is unchanged. -/
theorem enemy_onCollision_spec (e : Entity) (col : Collision) :
    ((enemyOnCollision e col).1.direction.x =
      if col.x ≠ e.position.xRounded then e.direction.x * (-1) else e.direction.x) ∧
    ((enemyOnCollision e col).1.direction.y =
      if col.y ≠ e.position.yRounded then e.direction.y * (-1) else e.direction.y) ∧
    ((enemyOnCollision e col).2 = true ↔
      (col.collidedCellState = some CLAIMING ∨
        ∃ p, col.collidedEntity = some p ∧ p.kind = EntityKind.player)) ∧
    ((enemyOnCollision e col).1.position = e.position) ∧
    ((enemyOnCollision e col).1.speed = e.speed) := by
  unfold enemyOnCollision
  refine ⟨?_, ?_, ?_, rfl, rfl⟩
  · by_cases hx : col.x = e.position.xRounded <;>
      by_cases hy : col.y = e.position.yRounded <;> simp [hx, hy]
  · by_cases hy : col.y = e.position.yRounded <;>
      by_cases hx : col.x = e.position.xRounded <;> simp [hx, hy]
  · cases hce : col.collidedEntity with
    | none => simp [hce]
    | some p =>
      by_cases hk : p.kind = EntityKind.player <;> simp [hce, hk]

/-! ## C7 — timer countdown behaviour -/

/-- C7: starting a fresh timer with `countdown = true, startSeconds = 3`,
the first three second-ticks fire no time-up and leave `seconds` at 0; the
fourth tick fires exactly one time-up and leaves the timer paused; and the
rendered duration is never negative. -/
theorem timer_countdown_spec :
    ((XonixTimer.fresh.start true 3).tick.2 = false) ∧
    ((XonixTimer.fresh.start true 3).tick.1.tick.2 = false) ∧
    ((XonixTimer.fresh.start true 3).tick.1.tick.1.tick.2 = false) ∧
    ((XonixTimer.fresh.start true 3).tick.1.tick.1.tick.1.seconds = 0) ∧
    ((XonixTimer.fresh.start true 3).tick.1.tick.1.tick.1.tick.2 = true) ∧
    ((XonixTimer.fresh.start true 3).tick.1.tick.1.tick.1.tick.1.paused = true) ∧
    (∀ t : XonixTimer, 0 ≤ t.displayedSeconds) := by
  refine ⟨by decide, by decide, by decide, by decide, by decide, by decide, ?_⟩
  intro t
  exact le_max_left 0 t.seconds

/-! ## C5 — notifications over a level lifetime -/

/-- C5 counterexample: with 0 lives, two consecutive `die()` calls each
fire a `lost` notification — `lost` is *not* fired at most once per level
lifetime. -/
theorem lost_fires_twice :
    lvlB.die.2.count Notif.lost = 1 ∧ lvlB.die.1.die.2.count Notif.lost = 1 := by
  decide

/-- C5 (amended): each single `die()` call fires at most one `lost` and no
`won`; each single `claim()` call fires at most one `won` and no `lost`.
(The code re-fires on every qualifying call: at-most-once over a lifetime
holds only if the caller stops driving the level after the first one.) -/
theorem notif_at_most_one_per_call (lvl : XonixLevel) :
    lvl.die.2.count Notif.lost ≤ 1 ∧
    lvl.die.2.count Notif.won = 0 ∧
    lvl.claim.2.count Notif.won ≤ 1 ∧
    lvl.claim.2.count Notif.lost = 0 := by
  refine ⟨?_, ?_, ?_, ?_⟩
  · show (Notif.died :: _).count Notif.lost ≤ 1
    by_cases h : lvl.player.lives - 1 < 0 <;> simp [XonixLevel.die, h]
  · show (Notif.died :: _).count Notif.won = 0
    by_cases h : lvl.player.lives - 1 < 0 <;> simp [XonixLevel.die, h]
  · show (XonixLevel.claim lvl).2.count Notif.won ≤ 1
    unfold XonixLevel.claim
    cases hr : (lvl.field.claim lvl.enemies).claimedRatio with
    | none => simp [hr]
    | some r =>
      by_cases h : lvl.claimRatioWin < r <;> simp [hr, h]
  · show (XonixLevel.claim lvl).2.count Notif.lost = 0
    unfold XonixLevel.claim
    cases hr : (lvl.field.claim lvl.enemies).claimedRatio with
    | none => simp [hr]
    | some r =>
      by_cases h : lvl.claimRatioWin < r <;> simp [hr, h]

end Xonix
